import Mathlib

set_option maxHeartbeats 1000000

-- Shallow embedding of src/src/abi.rs: the ABI-lowering layer of a
-- Cranelift-based code generator.  Pure functions of the source become Lean
-- functions; the mutable FunctionCx/low-level-builder state becomes explicit
-- state passing over an `Fx` record; fatal diagnostics (unimplemented!,
-- unimpl!, bug!, assert failures) become `Except Err` errors.  External
-- oracles (type layout, signature lookup, instance resolution, the vtable
-- helpers of other modules) are fields of a `Tcx` record or definitions whose
-- doc comment starts with `Modelled from the spec:`.

namespace Clif

-- Cranelift machine value types: the subset this file produces.
inductive ClifType where
  | i8 | i16 | i32 | i64 | i128 | f32 | f64
deriving DecidableEq

-- cranelift Type::is_int: integer-class machine types.
def ClifType.is_int : ClifType → Bool
  | .i8 | .i16 | .i32 | .i64 | .i128 => true
  | .f32 | .f64 => false

-- rustc::ty::layout::Integer
inductive Integer where
  | i8 | i16 | i32 | i64 | i128
deriving DecidableEq

-- rustc::ty::layout::FloatTy
inductive FloatTy where
  | f32 | f64
deriving DecidableEq

-- rustc::ty::layout::Primitive
inductive Primitive where
  | int (i : Integer) (signed : Bool)
  | float (f : FloatTy)
  | pointer
deriving DecidableEq

-- rustc::ty::layout::Scalar; only the `value` field is consumed by abi.rs.
structure Scalar where
  value : Primitive
deriving DecidableEq

-- Source-level types, as far as the ABI layer inspects them.  Types the layer
-- never takes apart are `base`; trait-object types are `dynamic`; `fnDef`
-- carries the def id and substs matched by `ty::FnDef(def_id, substs)`.
inductive Ty where
  | tuple (tys : List Ty)
  | mutPtr (pointee : Ty)
  | mutRef (pointee : Ty)
  | dynamic (id : Nat)
  | fnDef (defId : Nat) (substs : Nat)
  | base (id : Nat)

mutual

def Ty.decEq : (a b : Ty) → Decidable (a = b)
  | .tuple xs, .tuple ys =>
    match Ty.decEqList xs ys with
    | isTrue h => isTrue (by rw [h])
    | isFalse h => isFalse (fun hh => h (by injection hh))
  | .mutPtr x, .mutPtr y =>
    match Ty.decEq x y with
    | isTrue h => isTrue (by rw [h])
    | isFalse h => isFalse (fun hh => h (by injection hh))
  | .mutRef x, .mutRef y =>
    match Ty.decEq x y with
    | isTrue h => isTrue (by rw [h])
    | isFalse h => isFalse (fun hh => h (by injection hh))
  | .dynamic x, .dynamic y =>
    match Nat.decEq x y with
    | isTrue h => isTrue (by rw [h])
    | isFalse h => isFalse (fun hh => h (by injection hh))
  | .fnDef x1 x2, .fnDef y1 y2 =>
    match Nat.decEq x1 y1, Nat.decEq x2 y2 with
    | isTrue h1, isTrue h2 => isTrue (by rw [h1, h2])
    | isFalse h1, _ => isFalse (fun hh => h1 (by injection hh))
    | _, isFalse h2 => isFalse (fun hh => h2 (by injection hh))
  | .base x, .base y =>
    match Nat.decEq x y with
    | isTrue h => isTrue (by rw [h])
    | isFalse h => isFalse (fun hh => h (by injection hh))
  | .tuple _, .mutPtr _ => isFalse (fun h => Ty.noConfusion h)
  | .tuple _, .mutRef _ => isFalse (fun h => Ty.noConfusion h)
  | .tuple _, .dynamic _ => isFalse (fun h => Ty.noConfusion h)
  | .tuple _, .fnDef _ _ => isFalse (fun h => Ty.noConfusion h)
  | .tuple _, .base _ => isFalse (fun h => Ty.noConfusion h)
  | .mutPtr _, .tuple _ => isFalse (fun h => Ty.noConfusion h)
  | .mutPtr _, .mutRef _ => isFalse (fun h => Ty.noConfusion h)
  | .mutPtr _, .dynamic _ => isFalse (fun h => Ty.noConfusion h)
  | .mutPtr _, .fnDef _ _ => isFalse (fun h => Ty.noConfusion h)
  | .mutPtr _, .base _ => isFalse (fun h => Ty.noConfusion h)
  | .mutRef _, .tuple _ => isFalse (fun h => Ty.noConfusion h)
  | .mutRef _, .mutPtr _ => isFalse (fun h => Ty.noConfusion h)
  | .mutRef _, .dynamic _ => isFalse (fun h => Ty.noConfusion h)
  | .mutRef _, .fnDef _ _ => isFalse (fun h => Ty.noConfusion h)
  | .mutRef _, .base _ => isFalse (fun h => Ty.noConfusion h)
  | .dynamic _, .tuple _ => isFalse (fun h => Ty.noConfusion h)
  | .dynamic _, .mutPtr _ => isFalse (fun h => Ty.noConfusion h)
  | .dynamic _, .mutRef _ => isFalse (fun h => Ty.noConfusion h)
  | .dynamic _, .fnDef _ _ => isFalse (fun h => Ty.noConfusion h)
  | .dynamic _, .base _ => isFalse (fun h => Ty.noConfusion h)
  | .fnDef _ _, .tuple _ => isFalse (fun h => Ty.noConfusion h)
  | .fnDef _ _, .mutPtr _ => isFalse (fun h => Ty.noConfusion h)
  | .fnDef _ _, .mutRef _ => isFalse (fun h => Ty.noConfusion h)
  | .fnDef _ _, .dynamic _ => isFalse (fun h => Ty.noConfusion h)
  | .fnDef _ _, .base _ => isFalse (fun h => Ty.noConfusion h)
  | .base _, .tuple _ => isFalse (fun h => Ty.noConfusion h)
  | .base _, .mutPtr _ => isFalse (fun h => Ty.noConfusion h)
  | .base _, .mutRef _ => isFalse (fun h => Ty.noConfusion h)
  | .base _, .dynamic _ => isFalse (fun h => Ty.noConfusion h)
  | .base _, .fnDef _ _ => isFalse (fun h => Ty.noConfusion h)

def Ty.decEqList : (a b : List Ty) → Decidable (a = b)
  | [], [] => isTrue rfl
  | x :: xs, y :: ys =>
    match Ty.decEq x y, Ty.decEqList xs ys with
    | isTrue h1, isTrue h2 => isTrue (by rw [h1, h2])
    | isFalse h1, _ => isFalse (fun hh => h1 (by injection hh))
    | _, isFalse h2 => isFalse (fun hh => h2 (by injection hh))
  | [], _ :: _ => isFalse (fun h => List.noConfusion h)
  | _ :: _, [] => isFalse (fun h => List.noConfusion h)

end

instance : DecidableEq Ty := Ty.decEq

-- tcx.mk_unit()
def mk_unit : Ty := .tuple []

-- layout::Abi
inductive LayoutAbi where
  | uninhabited
  | scalar (s : Scalar)
  | scalarPair (a b : Scalar)
  | vector
  | aggregate
deriving DecidableEq

-- TyLayout: the layout oracle's answer for a type (size/align are not
-- consumed by the lowering decisions of abi.rs, only zst-ness and the abi
-- class; `ty` mirrors TyLayout::ty).
structure TyLayout where
  ty : Ty
  isZst : Bool
  abi : LayoutAbi
deriving DecidableEq

-- rustc_target::spec::abi::Abi, restricted to the variants abi.rs matches on;
-- every other declared convention is `other`.
inductive Abi where
  | rust
  | c
  | system
  | rustCall
  | rustIntrinsic
  | other (id : Nat)
deriving DecidableEq

-- rustc FnSig after normalize_erasing_late_bound_regions.
structure FnSig where
  inputs : List Ty
  output : Ty
  abi : Abi
  c_variadic : Bool
deriving DecidableEq

-- cranelift CallConv: abi.rs only ever emits SystemV.
inductive CallConv where
  | systemV
deriving DecidableEq

-- cranelift Signature; AbiParam is just a wrapped ClifType.
structure Signature where
  params : List ClifType
  returns : List ClifType
  call_conv : CallConv
deriving DecidableEq

-- ty::InstanceDef, restricted to the variants abi.rs matches on.
inductive InstanceDef where
  | item
  | intrinsic
  | virtual (idx : Nat)
  | dropGlue (dropTy : Option Ty)
deriving DecidableEq

-- A resolved, monomorphized ty::Instance together with the oracle answers
-- abi.rs asks about it: symbol_name, fn_sig, and Instance::ty.
structure Instance where
  idef : InstanceDef
  symbol : String
  fn_sig : FnSig
  fnTy : Ty
deriving DecidableEq

-- A CValue: a high-level value, either in registers or memory-backed.
-- Machine values are identifiers (Nat) into the builder state.
inductive CValue where
  | byVal (v : Nat) (layout : TyLayout)
  | byValPair (a b : Nat) (layout : TyLayout)
  | byRef (addr : Nat) (layout : TyLayout)
deriving DecidableEq

def CValue.layout : CValue → TyLayout
  | .byVal _ l => l
  | .byValPair _ _ l => l
  | .byRef _ l => l

-- A CPlace.  `fieldOf` is the symbolic result of `place_field`, recorded so
-- that field writes made by the prelude are observable in the trace.
inductive CPlace where
  | var (loc : Nat) (layout : TyLayout)
  | stack (slot : Nat) (layout : TyLayout)
  | noPlace (layout : TyLayout)
  | addr (a : Nat) (extra : Option Nat) (layout : TyLayout)
  | fieldOf (parent : CPlace) (i : Nat)
deriving DecidableEq

def CPlace.layout : CPlace → TyLayout
  | .var _ l => l
  | .stack _ l => l
  | .noPlace l => l
  | .addr _ _ l => l
  | .fieldOf p _ => p.layout

-- The external compiler context: the layout oracle, signature oracle,
-- instance-resolution oracle and target facts consumed by abi.rs.
structure Tcx where
  pointerType : ClifType
  isLikeWindows : Bool
  layoutOf : Ty → TyLayout
  fnSigOf : Ty → FnSig
  resolveInstance : Nat → Nat → Instance
  resolveDropInPlace : Ty → Instance
  valueField : CValue → Nat → CValue

-- pointer_ty(tcx)
def pointer_ty (tcx : Tcx) : ClifType := tcx.pointerType

-- The fatal diagnostics of abi.rs.
inductive Err where
  | windowsSystemAbi
  | unsupportedAbi (a : Abi)
  | rustCallArity
  | notATuple
  | variadicDefinition
  | variadicNonCAbi (a : Abi)
  | variadicNonIntArg (t : ClifType)
  | bug (msg : String)
deriving DecidableEq

inductive PassMode where
  | noPass
  | byVal (t : ClifType)
  | byValPair (a b : ClifType)
  | byRef
deriving DecidableEq

inductive EmptySinglePair (α : Type) where
  | empty
  | single (a : α)
  | pair (a b : α)
deriving DecidableEq

def EmptySinglePair.toList {α : Type} : EmptySinglePair α → List α
  | .empty => []
  | .single a => [a]
  | .pair a b => [a, b]

-- PassMode::get_param_ty (the fx argument is only consulted for
-- fx.pointer_type, passed here directly).
def PassMode.get_param_ty (pm : PassMode) (ptrTy : ClifType) : EmptySinglePair ClifType :=
  match pm with
  | .noPass => .empty
  | .byVal clif_type => .single clif_type
  | .byValPair a b => .pair a b
  | .byRef => .single ptrTy

-- scalar_to_clif_type
def scalar_to_clif_type (tcx : Tcx) (scalar : Scalar) : ClifType :=
  match scalar.value with
  | .int i _sign =>
    match i with
    | .i8 => .i8
    | .i16 => .i16
    | .i32 => .i32
    | .i64 => .i64
    | .i128 => .i128
  | .float f =>
    match f with
    | .f32 => .f32
    | .f64 => .f64
  | .pointer => pointer_ty tcx

-- get_pass_mode.  The source asserts !layout.is_unsized(); the embedding
-- covers the sized layouts the assertion admits.
def get_pass_mode (tcx : Tcx) (layout : TyLayout) : PassMode :=
  if layout.isZst then
    -- WARNING zst arguments must never be passed, as that will break
    -- CastKind::ClosureFnPointer
    .noPass
  else
    match layout.abi with
    | .uninhabited => .noPass
    | .scalar scalar => .byVal (scalar_to_clif_type tcx scalar)
    | .scalarPair a b =>
      let a := scalar_to_clif_type tcx a
      let b := scalar_to_clif_type tcx b
      if a = .i128 ∧ b = .i128 then
        -- Returning (i128, i128) by-val-pair would take 4 regs, while only 3
        -- are available on x86_64.
        .byRef
      else
        .byValPair a b
    | .vector => .byRef
    | .aggregate => .byRef

-- The slot list one pass mode contributes to a low-level signature
-- (the ESP-to-iterator step of clif_sig_from_fn_sig).
def pass_mode_slot_tys (tcx : Tcx) (pm : PassMode) : List ClifType :=
  (match pm with
   | .noPass => EmptySinglePair.empty
   | .byVal clif_ty => .single clif_ty
   | .byValPair clif_ty_a clif_ty_b => .pair clif_ty_a clif_ty_b
   | .byRef => .single (pointer_ty tcx)).toList

-- Slots a declared (non-receiver-thinned) type contributes.
def arg_slots (tcx : Tcx) (ty : Ty) : List ClifType :=
  pass_mode_slot_tys tcx (get_pass_mode tcx (tcx.layoutOf ty))

-- The per-input step of clif_sig_from_fn_sig: a virtual call replaces the
-- layout of parameter 0 by the layout of a thin pointer before classifying.
def input_slot_tys (tcx : Tcx) (is_vtable_fn : Bool) (i : Nat) (ty : Ty) : List ClifType :=
  let layout := if i == 0 && is_vtable_fn then tcx.layoutOf (Ty.mutPtr mk_unit) else tcx.layoutOf ty
  pass_mode_slot_tys tcx (get_pass_mode tcx layout)

-- inputs.into_iter().enumerate().map(input_slot_tys).flatten()
def lowered_inputs_from (tcx : Tcx) (is_vtable_fn : Bool) (i : Nat) : List Ty → List ClifType
  | [] => []
  | ty :: rest => input_slot_tys tcx is_vtable_fn i ty ++ lowered_inputs_from tcx is_vtable_fn (i + 1) rest

def lowered_inputs (tcx : Tcx) (is_vtable_fn : Bool) (inputs : List Ty) : List ClifType :=
  lowered_inputs_from tcx is_vtable_fn 0 inputs

-- The abi-resolution step of clif_sig_from_fn_sig: Abi::System maps to C on
-- non-Windows-like targets and is a hard failure otherwise.
def abi_of_sig (tcx : Tcx) (sig : FnSig) : Except Err Abi :=
  match sig.abi with
  | .system =>
    if tcx.isLikeWindows then .error .windowsSystemAbi else .ok .c
  | a => .ok a

-- The convention-dispatch step of clif_sig_from_fn_sig: calling convention,
-- effective parameter type list and return type.
def conv_inputs_output (sig : FnSig) (abi : Abi) : Except Err (CallConv × List Ty × Ty) :=
  match abi with
  | .rust => .ok (.systemV, sig.inputs, sig.output)
  | .c => .ok (.systemV, sig.inputs, sig.output)
  | .rustCall =>
    match sig.inputs with
    | [self_arg, pack_arg] =>
      match pack_arg with
      | .tuple tupled_arguments => .ok (.systemV, self_arg :: tupled_arguments, sig.output)
      | _ => .error .notATuple
    | _ => .error .rustCallArity
  | .system => .error (.bug "Abi::System is resolved before convention dispatch")
  | .rustIntrinsic => .ok (.systemV, sig.inputs, sig.output)
  | .other a => .error (.unsupportedAbi (.other a))

-- clif_sig_from_fn_sig
def clif_sig_from_fn_sig (tcx : Tcx) (sig : FnSig) (is_vtable_fn : Bool) : Except Err Signature :=
  match abi_of_sig tcx sig with
  | .error e => .error e
  | .ok abi =>
    match conv_inputs_output sig abi with
    | .error e => .error e
    | .ok (call_conv, inputs, output) =>
      let ins := lowered_inputs tcx is_vtable_fn inputs
      let (params, returns) :=
        match get_pass_mode tcx (tcx.layoutOf output) with
        | .noPass => (ins, [])
        | .byVal ret_ty => (ins, [ret_ty])
        | .byValPair ret_ty_a ret_ty_b => (ins, [ret_ty_a, ret_ty_b])
        | .byRef =>
          -- First param is place to put return val
          (pointer_ty tcx :: ins, [])
      .ok { params := params, returns := returns, call_conv := call_conv }

-- get_function_name_and_sig
def get_function_name_and_sig (tcx : Tcx) (inst : Instance) (support_vararg : Bool) :
    Except Err (String × Signature) :=
  let fn_sig := inst.fn_sig
  if fn_sig.c_variadic && !support_vararg then
    .error .variadicDefinition
  else
    match clif_sig_from_fn_sig tcx fn_sig false with
    | .error e => .error e
    | .ok sig => .ok (inst.symbol, sig)

-- ---------------------------------------------------------------------------
-- Spec-side definition for the refinement claim about the classifier.

-- The machine type the spec assigns to a scalar: 8/16/32/64/128-bit integer,
-- 32/64-bit float, or pointer width.
def machine_type_of_scalar_spec (tcx : Tcx) (s : Scalar) : ClifType :=
  match s.value with
  | .int .i8 _ => .i8
  | .int .i16 _ => .i16
  | .int .i32 _ => .i32
  | .int .i64 _ => .i64
  | .int .i128 _ => .i128
  | .float .f32 => .f32
  | .float .f64 => .f64
  | .pointer => tcx.pointerType

-- The classification rule exactly as the spec states it: Uninhabited or
-- zero-sized gives NoPass; Scalar gives ByVal at the matching machine type;
-- ScalarPair gives ByValPair unless both halves are 128-bit integers, in
-- which case ByRef; Vector and Aggregate give ByRef.
def classify_spec (tcx : Tcx) (layout : TyLayout) : PassMode :=
  if layout.isZst then
    .noPass
  else
    match layout.abi with
    | .uninhabited => .noPass
    | .scalar s => .byVal (machine_type_of_scalar_spec tcx s)
    | .scalarPair a b =>
      let ta := machine_type_of_scalar_spec tcx a
      let tb := machine_type_of_scalar_spec tcx b
      if ta = .i128 ∧ tb = .i128 then .byRef else .byValPair ta tb
    | .vector => .byRef
    | .aggregate => .byRef

lemma scalar_to_clif_type_eq_spec (tcx : Tcx) (s : Scalar) :
    scalar_to_clif_type tcx s = machine_type_of_scalar_spec tcx s := by
  rcases s with ⟨v⟩
  cases v with
  | int i sg => cases i <;> rfl
  | float f => cases f <;> rfl
  | pointer => rfl

/-- Claim C1: for every layout, the PassMode classifier returns NoPass for
zero-sized or uninhabited layouts, ByVal at the matching machine type for
scalars, ByValPair for scalar pairs except ByRef when both halves are 128-bit
integers, and ByRef for vector and aggregate layouts: `get_pass_mode` agrees
with the spec-side rule `classify_spec` on every layout. -/
theorem c1_pass_mode_classifier (tcx : Tcx) (layout : TyLayout) :
    get_pass_mode tcx layout = classify_spec tcx layout := by
  rcases layout with ⟨ty, z, abi⟩
  cases z with
  | true => rfl
  | false =>
    cases abi with
    | uninhabited => rfl
    | scalar s =>
      simp [get_pass_mode, classify_spec, scalar_to_clif_type_eq_spec]
    | scalarPair a b =>
      simp [get_pass_mode, classify_spec, scalar_to_clif_type_eq_spec]
    | vector => rfl
    | aggregate => rfl


-- ---------------------------------------------------------------------------
-- The in-progress low-level function builder state.

-- The instructions / builder events this layer emits.  Machine values are
-- identified by allocation order; `write` records a CPlace::write_cvalue,
-- `sigRewrite` records the in-place rewrite of an emitted call signature,
-- and the two `*IntrinsicCall` events record delegation to the intrinsic
-- lowering collaborators.
inductive Inst where
  | iconst (v : Nat) (ty : ClifType) (k : Int)
  | load (v : Nat) (addr : Nat)
  | stackAddr (v : Nat) (slot : Nat)
  | store (val addr : Nat)
  | call (sym : String) (args : List Nat) (results : List Nat)
  | callIndirect (sig : Signature) (callee : Nat) (args : List Nat) (results : List Nat)
  | jump (ebb : Nat)
  | trap (msg : String)
  | write (p : CPlace) (v : CValue)
  | sigRewrite (params : List ClifType)
  | llvmIntrinsicCall (name : String)
  | intrinsicCall (defId : Nat)
deriving DecidableEq

-- FunctionCx state: allocated machine values (indexed by id, holding their
-- cranelift type), emitted instructions in order, the parameters appended to
-- the entry block in order, the local -> place map, and the stack-slot
-- counter.
structure Fx where
  valTys : List ClifType
  insts : List Inst
  ebbParams : List Nat
  localMap : List (Nat × CPlace)
  nextSlot : Nat
deriving DecidableEq

def Fx.init : Fx := { valTys := [], insts := [], ebbParams := [], localMap := [], nextSlot := 0 }

def Fx.freshVal (fx : Fx) (t : ClifType) : Nat × Fx :=
  (fx.valTys.length, { fx with valTys := fx.valTys ++ [t] })

def Fx.freshVals (fx : Fx) : List ClifType → List Nat × Fx
  | [] => ([], fx)
  | t :: ts =>
    let (v, fx1) := fx.freshVal t
    let (vs, fx2) := fx1.freshVals ts
    (v :: vs, fx2)

def Fx.emit (fx : Fx) (i : Inst) : Fx := { fx with insts := fx.insts ++ [i] }

-- bcx.func.dfg.value_type; every value consulted was allocated through
-- freshVal, so the lookup never misses in a run of this model.
def Fx.valTyOf (fx : Fx) (v : Nat) : ClifType := (fx.valTys.get? v).getD .i64

def Fx.appendEbbParam (fx : Fx) (t : ClifType) : Nat × Fx :=
  let (v, fx1) := fx.freshVal t
  (v, { fx1 with ebbParams := fx1.ebbParams ++ [v] })

def Fx.freshSlot (fx : Fx) : Nat × Fx :=
  (fx.nextSlot, { fx with nextSlot := fx.nextSlot + 1 })

def Fx.bindLocal (fx : Fx) (loc : Nat) (p : CPlace) : Fx :=
  { fx with localMap := fx.localMap ++ [(loc, p)] }

def Fx.lookupLocal (fx : Fx) (loc : Nat) : Option CPlace :=
  (fx.localMap.find? (fun q => q.1 == loc)).map (fun q => q.2)

-- mir::RETURN_PLACE and mir::START_BLOCK
def RETURN_PLACE : Nat := 0
def START_BLOCK : Nat := 0

-- ---------------------------------------------------------------------------
-- External CValue / CPlace operations (value_and_places.rs and vtable.rs are
-- collaborators outside abi.rs).

/-- Modelled from the spec: `CValue::load_scalar` of the external value
module.  Outbound marshalling of a ByVal argument loads one scalar: an
in-register value is itself, a memory-backed scalar is loaded from its
address. -/
def load_scalar (tcx : Tcx) (fx : Fx) : CValue → Except Err (Nat × Fx)
  | .byVal v _ => .ok (v, fx)
  | .byValPair _ _ _ => .error (.bug "load_scalar on a ByValPair value")
  | .byRef a layout =>
    match layout.abi with
    | .scalar s =>
      let (v, fx1) := fx.freshVal (scalar_to_clif_type tcx s)
      .ok (v, fx1.emit (.load v a))
    | _ => .error (.bug "load_scalar on a non-scalar memory value")

/-- Modelled from the spec: `CValue::load_scalar_pair`.  Outbound marshalling
of a ByValPair argument loads two scalars. -/
def load_scalar_pair (tcx : Tcx) (fx : Fx) : CValue → Except Err ((Nat × Nat) × Fx)
  | .byValPair a b _ => .ok ((a, b), fx)
  | .byVal _ _ => .error (.bug "load_scalar_pair on a ByVal value")
  | .byRef addr layout =>
    match layout.abi with
    | .scalarPair s1 s2 =>
      let (v1, fx1) := fx.freshVal (scalar_to_clif_type tcx s1)
      let fx2 := fx1.emit (.load v1 addr)
      let (v2, fx3) := fx2.freshVal (scalar_to_clif_type tcx s2)
      .ok ((v1, v2), fx3.emit (.load v2 addr))
    | _ => .error (.bug "load_scalar_pair on a non-pair memory value")

/-- Modelled from the spec: `CValue::force_stack`.  A ByRef argument is
materialized into addressable memory and its address is passed: an already
memory-backed value passes its address, an in-register value is spilled to a
fresh stack slot. -/
def force_stack (tcx : Tcx) (fx : Fx) : CValue → Nat × Fx
  | .byRef a _ => (a, fx)
  | .byVal v _ =>
    let (slot, fx1) := fx.freshSlot
    let (a, fx2) := fx1.freshVal (pointer_ty tcx)
    ((a, (fx2.emit (.stackAddr a slot)).emit (.store v a)))
  | .byValPair v1 v2 _ =>
    let (slot, fx1) := fx.freshSlot
    let (a, fx2) := fx1.freshVal (pointer_ty tcx)
    ((a, ((fx2.emit (.stackAddr a slot)).emit (.store v1 a)).emit (.store v2 a)))

/-- Modelled from the spec: `CPlace::to_addr_maybe_unsized`.  An address-backed
place yields its address and optional unsized extra; a stack-slot place yields
the slot address. -/
def CPlace.to_addr_maybe_unsized (p : CPlace) (tcx : Tcx) (fx : Fx) :
    Except Err ((Nat × Option Nat) × Fx) :=
  match p with
  | .addr a extra _ => .ok ((a, extra), fx)
  | .stack slot _ =>
    let (a, fx1) := fx.freshVal (pointer_ty tcx)
    .ok ((a, none), fx1.emit (.stackAddr a slot))
  | _ => .error (.bug "to_addr on a non-addressable place")

/-- Modelled from the spec: `CPlace::to_addr`, which refuses unsized places. -/
def CPlace.to_addr (p : CPlace) (tcx : Tcx) (fx : Fx) : Except Err (Nat × Fx) :=
  match p.to_addr_maybe_unsized tcx fx with
  | .ok ((a, none), fx1) => .ok (a, fx1)
  | .ok ((_, some _), _) => .error (.bug "to_addr on an unsized place")
  | .error e => .error e

/-- Modelled from the spec: `crate::vtable::get_ptr_and_method_ref`.  A
virtual call fetches the dispatch-table pointer from the receiver's
(data, table) representation, reads the function pointer at the method's
fixed slot, and thins the receiver to the data pointer. -/
def get_ptr_and_method_ref (tcx : Tcx) (fx : Fx) (receiver : CValue) (_idx : Nat) :
    Except Err ((Nat × Nat) × Fx) :=
  match receiver with
  | .byValPair dataPtr vtablePtr _ =>
    let (m, fx1) := fx.freshVal (pointer_ty tcx)
    .ok ((dataPtr, m), fx1.emit (.load m vtablePtr))
  | .byRef a _ =>
    let (d, fx1) := fx.freshVal (pointer_ty tcx)
    let fx2 := fx1.emit (.load d a)
    let (v, fx3) := fx2.freshVal (pointer_ty tcx)
    let fx4 := fx3.emit (.load v a)
    let (m, fx5) := fx4.freshVal (pointer_ty tcx)
    .ok ((d, m), fx5.emit (.load m v))
  | .byVal _ _ => .error (.bug "virtual call receiver is not a fat pointer")

/-- Modelled from the spec: `crate::vtable::drop_fn_of_obj` reads the
destructor function pointer from the dispatch table. -/
def drop_fn_of_obj (tcx : Tcx) (fx : Fx) (vtable : Nat) : Nat × Fx :=
  let (v, fx1) := fx.freshVal (pointer_ty tcx)
  (v, fx1.emit (.load v vtable))

-- ---------------------------------------------------------------------------
-- Argument marshalling (abi.rs).

-- adjust_arg_for_abi
def adjust_arg_for_abi (tcx : Tcx) (fx : Fx) (arg : CValue) :
    Except Err (EmptySinglePair Nat × Fx) :=
  match get_pass_mode tcx arg.layout with
  | .noPass => .ok (.empty, fx)
  | .byVal _ =>
    match load_scalar tcx fx arg with
    | .ok (v, fx1) => .ok (.single v, fx1)
    | .error e => .error e
  | .byValPair _ _ =>
    match load_scalar_pair tcx fx arg with
    | .ok ((a, b), fx1) => .ok (.pair a b, fx1)
    | .error e => .error e
  | .byRef =>
    let (a, fx1) := force_stack tcx fx arg
    .ok (.single a, fx1)

-- cvalue_for_param.  The local / local_field / ssa_flags parameters of the
-- source only feed the optional debug comment sink and are omitted; the
-- get_param_ty / append_ebb_param / assert_single / assert_pair sequence is
-- fused per pass mode (the asserts cannot fire there).
def cvalue_for_param (tcx : Tcx) (fx : Fx) (arg_ty : Ty) : Option CValue × Fx :=
  let layout := tcx.layoutOf arg_ty
  let pass_mode := get_pass_mode tcx layout
  match pass_mode with
  | .noPass => (none, fx)
  | .byVal t =>
    let (v, fx1) := fx.appendEbbParam t
    (some (.byVal v layout), fx1)
  | .byValPair a b =>
    let (va, fx1) := fx.appendEbbParam a
    let (vb, fx2) := fx1.appendEbbParam b
    (some (.byValPair va vb layout), fx2)
  | .byRef =>
    let (v, fx1) := fx.appendEbbParam (pointer_ty tcx)
    (some (.byRef v layout), fx1)

-- local_place
def local_place (fx : Fx) (loc : Nat) (layout : TyLayout) (is_ssa : Bool) : CPlace × Fx :=
  let (place, fx1) :=
    if is_ssa then (CPlace.var loc layout, fx)
    else
      let (slot, fx2) := fx.freshSlot
      (CPlace.stack slot layout, fx2)
  (place, fx1.bindLocal loc place)

-- ---------------------------------------------------------------------------
-- Function prologue (codegen_fn_prelude).

-- The MIR facts the prelude consumes: argument locals with their
-- (monomorphized) types, the spread argument, and the remaining locals.
structure Mir where
  argLocals : List (Nat × Ty)
  spreadArg : Option Nat
  varsTemps : List (Nat × Ty)

-- None means pass_mode == NoPass
inductive ArgKind where
  | normal (p : Option CValue)
  | spread (ps : List (Option CValue))

def cvalues_for_params (tcx : Tcx) (fx : Fx) : List Ty → List (Option CValue) × Fx
  | [] => ([], fx)
  | t :: ts =>
    let (p, fx1) := cvalue_for_param tcx fx t
    let (ps, fx2) := cvalues_for_params tcx fx1 ts
    (p :: ps, fx2)

def collect_func_params (tcx : Tcx) (spreadArg : Option Nat) (fx : Fx) :
    List (Nat × Ty) → Except Err (List (Nat × ArgKind × Ty) × Fx)
  | [] => .ok ([], fx)
  | (loc, arg_ty) :: rest =>
    if spreadArg = some loc then
      -- This argument (e.g. the last argument in the rust-call ABI) is a
      -- tuple that was spread at the ABI level and is reconstructed into a
      -- tuple local variable from multiple individual function arguments.
      match arg_ty with
      | .tuple tys =>
        let (params, fx1) := cvalues_for_params tcx fx tys
        match collect_func_params tcx spreadArg fx1 rest with
        | .ok (tail, fx2) => .ok ((loc, .spread params, arg_ty) :: tail, fx2)
        | .error e => .error e
      | _ => .error (.bug "spread argument is not a tuple")
    else
      let (param, fx1) := cvalue_for_param tcx fx arg_ty
      match collect_func_params tcx spreadArg fx1 rest with
      | .ok (tail, fx2) => .ok ((loc, .normal param, arg_ty) :: tail, fx2)
      | .error e => .error e

def write_spread_fields (place : CPlace) (i : Nat) (fx : Fx) :
    List (Option CValue) → Fx
  | [] => fx
  | none :: rest => write_spread_fields place (i + 1) fx rest
  | some p :: rest => write_spread_fields place (i + 1) (fx.emit (.write (.fieldOf place i) p)) rest

def bind_args (tcx : Tcx) (ssaNotSSA : Nat → Bool) (fx : Fx) :
    List (Nat × ArgKind × Ty) → Fx
  | [] => fx
  | (loc, kind, ty) :: rest =>
    let layout := tcx.layoutOf ty
    let is_ssa := !(ssaNotSSA loc)
    let (place, fx1) := local_place fx loc layout is_ssa
    let fx2 :=
      match kind with
      | .normal none => fx1
      | .normal (some param) => fx1.emit (.write place param)
      | .spread params => write_spread_fields place 0 fx1 params
    bind_args tcx ssaNotSSA fx2 rest

def bind_vars_and_temps (tcx : Tcx) (ssaNotSSA : Nat → Bool) (fx : Fx) :
    List (Nat × Ty) → Fx
  | [] => fx
  | (loc, ty) :: rest =>
    let layout := tcx.layoutOf ty
    let is_ssa := !(ssaNotSSA loc)
    let (_, fx1) := local_place fx loc layout is_ssa
    bind_vars_and_temps tcx ssaNotSSA fx1 rest

-- codegen_fn_prelude.  `sig` is the function's own normalized FnSig
-- (fx.self_sig), `ssaNotSSA` is the external ssa-analysis collaborator
-- (true means the NOT_SSA flag is set), `ebbOf` is the ebb_map.
def codegen_fn_prelude (tcx : Tcx) (sig : FnSig) (mir : Mir) (ssaNotSSA : Nat → Bool)
    (ebbOf : Nat → Nat) (fx : Fx) : Except Err Fx :=
  let ret_layout := tcx.layoutOf sig.output
  let output_pass_mode := get_pass_mode tcx ret_layout
  let (ret_param, fx) :=
    match output_pass_mode with
    | .byRef =>
      let (v, fx1) := fx.appendEbbParam (pointer_ty tcx)
      (some v, fx1)
    | _ => (none, fx)
  match collect_func_params tcx mir.spreadArg fx mir.argLocals with
  | .error e => .error e
  | .ok (func_params, fx) =>
    let bound : Except Err Fx :=
      match output_pass_mode, ret_param with
      | .noPass, _ => .ok (fx.bindLocal RETURN_PLACE (.noPlace ret_layout))
      | .byVal _, _ => .ok (local_place fx RETURN_PLACE ret_layout (!(ssaNotSSA RETURN_PLACE))).2
      | .byValPair _ _, _ => .ok (local_place fx RETURN_PLACE ret_layout (!(ssaNotSSA RETURN_PLACE))).2
      | .byRef, some v => .ok (fx.bindLocal RETURN_PLACE (.addr v none ret_layout))
      | .byRef, none => .error (.bug "missing return pointer block param")
    match bound with
    | .error e => .error e
    | .ok fx =>
      let fx := bind_args tcx ssaNotSSA fx func_params
      let fx := bind_vars_and_temps tcx ssaNotSSA fx mir.varsTemps
      .ok (fx.emit (.jump (ebbOf START_BLOCK)))


-- ---------------------------------------------------------------------------
-- Call-site lowering (codegen_call_inner / codegen_terminator_call).

-- An operand together with its (monomorphized) type; trans_operand is an
-- external collaborator, so the operand carries its already-evaluated CValue.
structure Operand where
  opTy : Ty
  cval : CValue

-- The return_ptr computation of codegen_call_inner: a ByRef return takes the
-- address of the return place, or the constant 43 when the caller discards
-- the result.
def call_return_ptr (tcx : Tcx) (fx : Fx) (output_pass_mode : PassMode)
    (ret_place : Option CPlace) : Except Err (Option Nat × Fx) :=
  match output_pass_mode with
  | .byRef =>
    match ret_place with
    | some p =>
      match p.to_addr tcx fx with
      | .ok (a, fx1) => .ok (some a, fx1)
      | .error e => .error e
    | none =>
      let (v, fx1) := fx.freshVal (pointer_ty tcx)
      .ok (some v, fx1.emit (.iconst v (pointer_ty tcx) 43))
  | _ => .ok (none, fx)

-- Instance::resolve on a ty::FnDef callee type.
def resolve_fn_instance (tcx : Tcx) : Ty → Option Instance
  | .fnDef defId substs => some (tcx.resolveInstance defId substs)
  | _ => none

-- The (func_ref, first_arg, is_virtual_call) triple of codegen_call_inner:
-- virtual calls thin the receiver through the vtable helper, normal direct
-- calls adjust the first argument, indirect calls additionally evaluate the
-- callee operand to a runtime function address.
def call_target_and_first_arg (tcx : Tcx) (fx : Fx) (func : Option Operand)
    (instanceOpt : Option Instance) (args : List CValue) :
    Except Err ((Option Nat × EmptySinglePair Nat × Bool) × Fx) :=
  match instanceOpt with
  | some inst =>
    match inst.idef with
    | .virtual idx =>
      -- Trait object call
      match args.head? with
      | none => .error (.bug "virtual call without a receiver argument")
      | some a0 =>
        match get_ptr_and_method_ref tcx fx a0 idx with
        | .ok ((ptr, method), fx1) => .ok ((some method, .single ptr, true), fx1)
        | .error e => .error e
    | _ =>
      -- Normal call
      match args.head? with
      | none => .ok ((none, .empty, false), fx)
      | some a0 =>
        match adjust_arg_for_abi tcx fx a0 with
        | .ok (esp, fx1) => .ok ((none, esp, false), fx1)
        | .error e => .error e
  | none =>
    -- Indirect call
    match func with
    | none => .error (.bug "indirect call without func Operand")
    | some funcOp =>
      match load_scalar tcx fx funcOp.cval with
      | .ok (f, fx1) =>
        match args.head? with
        | none => .ok ((some f, .empty, false), fx1)
        | some a0 =>
          match adjust_arg_for_abi tcx fx1 a0 with
          | .ok (esp, fx2) => .ok ((some f, esp, false), fx2)
          | .error e => .error e
      | .error e => .error e

-- args.into_iter().skip(1).map(adjust_arg_for_abi).flatten()
def adjust_args (tcx : Tcx) (fx : Fx) : List CValue → Except Err (List Nat × Fx)
  | [] => .ok ([], fx)
  | a :: rest =>
    match adjust_arg_for_abi tcx fx a with
    | .ok (esp, fx1) =>
      match adjust_args tcx fx1 rest with
      | .ok (vs, fx2) => .ok (esp.toList ++ vs, fx2)
      | .error e => .error e
    | .error e => .error e

-- The per-argument machine types of a variadic call; a non-integer-class
-- type is the hard UnsupportedVariadicArgType failure.
def variadic_arg_tys (fx : Fx) : List Nat → Except Err (List ClifType)
  | [] => .ok []
  | v :: rest =>
    let ty := fx.valTyOf v
    if ty.is_int then
      match variadic_arg_tys fx rest with
      | .ok ts => .ok (ty :: ts)
      | .error e => .error e
    else
      -- FIXME set %al to upperbound on float args once floats are supported
      .error (.variadicNonIntArg ty)

-- The variadic fixup of codegen_call_inner: only legal for the C convention;
-- the emitted call signature is rewritten to the machine types of the actual
-- arguments observed at this call site.
def variadic_adjustment (fx : Fx) (fn_sig : FnSig) (call_args : List Nat) : Except Err Fx :=
  if fn_sig.c_variadic then
    if fn_sig.abi ≠ .c then .error (.variadicNonCAbi fn_sig.abi)
    else
      match variadic_arg_tys fx call_args with
      | .ok abi_params => .ok (fx.emit (.sigRewrite abi_params))
      | .error e => .error e
  else .ok fx

-- The result-reconstruction tail of codegen_call_inner.
def write_call_result (fx : Fx) (output_pass_mode : PassMode) (ret_place : Option CPlace)
    (results : List Nat) (ret_layout : TyLayout) : Except Err Fx :=
  match output_pass_mode with
  | .noPass => .ok fx
  | .byVal _ =>
    match ret_place with
    | none => .ok fx
    | some p =>
      match results with
      | r :: _ => .ok (fx.emit (.write p (.byVal r ret_layout)))
      | [] => .error (.bug "call produced no result value")
  | .byValPair _ _ =>
    match ret_place with
    | none => .ok fx
    | some p =>
      match results with
      | a :: b :: _ => .ok (fx.emit (.write p (.byValPair a b ret_layout)))
      | _ => .error (.bug "call produced fewer than two result values")
  | .byRef => .ok fx

-- codegen_call_inner
def codegen_call_inner (tcx : Tcx) (fx : Fx) (func : Option Operand) (fn_ty : Ty)
    (args : List CValue) (ret_place : Option CPlace) : Except Err Fx :=
  let fn_sig := tcx.fnSigOf fn_ty
  let ret_layout := tcx.layoutOf fn_sig.output
  let output_pass_mode := get_pass_mode tcx (tcx.layoutOf fn_sig.output)
  match call_return_ptr tcx fx output_pass_mode ret_place with
  | .error e => .error e
  | .ok (return_ptr, fx) =>
    let instanceOpt := resolve_fn_instance tcx fn_ty
    match call_target_and_first_arg tcx fx func instanceOpt args with
    | .error e => .error e
    | .ok ((func_ref, first_arg, is_virtual_call), fx) =>
      match adjust_args tcx fx (args.drop 1) with
      | .error e => .error e
      | .ok (rest_args, fx) =>
        let call_args : List Nat := return_ptr.toList ++ first_arg.toList ++ rest_args
        let emitted : Except Err (List Nat × Fx) :=
          match func_ref with
          | some f =>
            match clif_sig_from_fn_sig tcx fn_sig is_virtual_call with
            | .ok sig =>
              let (results, fx1) := fx.freshVals sig.returns
              .ok (results, fx1.emit (.callIndirect sig f call_args results))
            | .error e => .error e
          | none =>
            match instanceOpt with
            | none => .error (.bug "non-indirect call on a non-FnDef type")
            | some inst =>
              match get_function_name_and_sig tcx inst true with
              | .ok (name, sig) =>
                let (results, fx1) := fx.freshVals sig.returns
                .ok (results, fx1.emit (.call name call_args results))
              | .error e => .error e
        match emitted with
        | .error e => .error e
        | .ok (results, fx) =>
          match variadic_adjustment fx fn_sig call_args with
          | .error e => .error e
          | .ok fx => write_call_result fx output_pass_mode ret_place results ret_layout

-- symbol_name(inst).as_str().starts_with(prefixStr), stated over the
-- underlying character lists so that concrete instances reduce.
def starts_with (s p : String) : Bool := p.data.isPrefixOf s.data

-- trap_unreachable
def trap_unreachable (fx : Fx) (msg : String) : Fx := fx.emit (.trap msg)

-- The argument-tuple unpacking for rust-call (closure-call) callees at a
-- call site; trans_operand and CValue::value_field are external
-- collaborators (the latter is the tcx.valueField oracle).
def terminator_call_args (tcx : Tcx) (sig : FnSig) (args : List Operand) :
    Except Err (List CValue) :=
  if sig.abi = .rustCall then
    match args with
    | [a0, a1] =>
      let self_arg := a0.cval
      let pack_arg := a1.cval
      match pack_arg.layout.ty with
      | .tuple tupled_arguments =>
        .ok (self_arg ::
          (List.range tupled_arguments.length).map (fun i => tcx.valueField pack_arg i))
      | _ => .error .notATuple
    | _ => .error .rustCallArity
  else .ok (args.map (fun a => a.cval))

-- The early-return paths of codegen_terminator_call for FnDef callees:
-- llvm-prefixed symbols and intrinsics are delegated whole to collaborator
-- lowerings, and a call to empty drop glue is elided to a jump.
def terminator_shortcut (tcx : Tcx) (ebbOf : Nat → Nat) (fx : Fx) (fn_ty : Ty)
    (destination : Option (CPlace × Nat)) : Option (Except Err Fx) :=
  match fn_ty with
  | .fnDef defId substs =>
    let inst := tcx.resolveInstance defId substs
    if starts_with inst.symbol "llvm." then
      some (.ok (fx.emit (.llvmIntrinsicCall inst.symbol)))
    else
      match inst.idef with
      | .intrinsic => some (.ok (fx.emit (.intrinsicCall defId)))
      | .dropGlue none =>
        -- empty drop glue - a nop
        match destination with
        | some (_, dest) => some (.ok (fx.emit (.jump (ebbOf dest))))
        | none => some (.error (.bug "non-terminating empty drop glue call"))
      | _ => none
  | _ => none

-- codegen_terminator_call.  The destination's Place has already been
-- translated by the external trans_place collaborator.
def codegen_terminator_call (tcx : Tcx) (ebbOf : Nat → Nat) (fx : Fx) (func : Operand)
    (args : List Operand) (destination : Option (CPlace × Nat)) : Except Err Fx :=
  let fn_ty := func.opTy
  let sig := tcx.fnSigOf fn_ty
  match terminator_shortcut tcx ebbOf fx fn_ty destination with
  | some r => r
  | none =>
    -- Unpack arguments tuple for closures
    match terminator_call_args tcx sig args with
    | .error e => .error e
    | .ok argVals =>
      match codegen_call_inner tcx fx (some func) fn_ty argVals
          (destination.map (fun d => d.1)) with
      | .error e => .error e
      | .ok fx =>
        match destination with
        | some (_, dest) => .ok (fx.emit (.jump (ebbOf dest)))
        | none => .ok (trap_unreachable fx "[corruption] Diverging function returned")

-- ---------------------------------------------------------------------------
-- Destruction lowering (codegen_drop).

def codegen_drop (tcx : Tcx) (fx : Fx) (drop_place : CPlace) : Except Err Fx :=
  let ty := drop_place.layout.ty
  let drop_fn := tcx.resolveDropInPlace ty
  match drop_fn.idef with
  | .dropGlue none =>
    -- we do not actually need to drop anything
    .ok fx
  | _ =>
    let drop_fn_ty := drop_fn.fnTy
    match ty with
    | .dynamic _ =>
      match drop_place.to_addr_maybe_unsized tcx fx with
      | .error e => .error e
      | .ok ((ptr, vtableOpt), fx) =>
        match vtableOpt with
        | none => .error (.bug "trait object place without a vtable")
        | some vtable =>
          let (drop_fn_ptr, fx) := drop_fn_of_obj tcx fx vtable
          let fn_sig := tcx.fnSigOf drop_fn_ty
          -- assert_eq!(fn_sig.output(), tcx.mk_unit())
          if fn_sig.output ≠ mk_unit then .error (.bug "drop glue does not return unit")
          else
            match clif_sig_from_fn_sig tcx fn_sig true with
            | .error e => .error e
            | .ok sig =>
              let (results, fx) := fx.freshVals sig.returns
              .ok (fx.emit (.callIndirect sig drop_fn_ptr [ptr] results))
    | _ =>
      let ref_layout := tcx.layoutOf (.mutRef ty)
      let (slot, fx) := fx.freshSlot
      let arg_place := CPlace.stack slot ref_layout
      -- drop_place.write_place_ref(fx, arg_place)
      match drop_place.to_addr tcx fx with
      | .error e => .error e
      | .ok (a, fx) =>
        let fx := fx.emit (.write arg_place (.byVal a ref_layout))
        -- arg_place.to_cvalue(fx)
        let (av, fx) := fx.freshVal (pointer_ty tcx)
        let fx := fx.emit (.stackAddr av slot)
        let arg_value := CValue.byRef av ref_layout
        codegen_call_inner tcx fx none drop_fn_ty [arg_value] none


-- ---------------------------------------------------------------------------
-- Shared helper lemmas.

lemma get_pass_mode_zst (tcx : Tcx) (layout : TyLayout) (h : layout.isZst = true) :
    get_pass_mode tcx layout = .noPass := by
  simp [get_pass_mode, h]

lemma conv_inputs_output_output (sig : FnSig) (abi : Abi) (cc : CallConv) (ins : List Ty)
    (out : Ty) (h : conv_inputs_output sig abi = .ok (cc, ins, out)) : out = sig.output := by
  unfold conv_inputs_output at h
  split at h <;> try simp_all
  all_goals split at h <;> try simp_all
  all_goals split at h <;> simp_all

-- ---------------------------------------------------------------------------
-- Concrete fixtures used by the closed instantiations below.

def zstLayout : TyLayout := { ty := mk_unit, isZst := true, abi := .aggregate }
def i32Layout : TyLayout := { ty := .base 1, isZst := false, abi := .scalar ⟨.int .i32 true⟩ }
def i64Layout : TyLayout := { ty := .base 2, isZst := false, abi := .scalar ⟨.int .i64 true⟩ }
def f64Layout : TyLayout := { ty := .base 3, isZst := false, abi := .scalar ⟨.float .f64⟩ }
def pairI128Layout : TyLayout :=
  { ty := .base 4, isZst := false, abi := .scalarPair ⟨.int .i128 false⟩ ⟨.int .i128 false⟩ }
def thinPtrLayout : TyLayout := { ty := .mutPtr mk_unit, isZst := false, abi := .scalar ⟨.pointer⟩ }
def fatPtrLayout : TyLayout := { ty := .base 6, isZst := false, abi := .scalarPair ⟨.pointer⟩ ⟨.pointer⟩ }

def unitFnSig : FnSig := { inputs := [], output := mk_unit, abi := .rust, c_variadic := false }
def sigF : FnSig := { inputs := [], output := .base 4, abi := .rust, c_variadic := false }
def sigG : FnSig := { inputs := [.base 1], output := mk_unit, abi := .rust, c_variadic := false }
def sigVariadic : FnSig := { inputs := [.base 3], output := mk_unit, abi := .c, c_variadic := true }
def sigVirt : FnSig := { inputs := [.base 6, .base 1], output := mk_unit, abi := .rust, c_variadic := false }

def instDefault : Instance :=
  { idef := .item, symbol := "h", fn_sig := unitFnSig, fnTy := .base 0 }

def tcxW : Tcx :=
  { pointerType := .i64
    isLikeWindows := false
    layoutOf := fun t =>
      match t with
      | .tuple [] => zstLayout
      | .mutPtr _ => thinPtrLayout
      | .mutRef _ => thinPtrLayout
      | .base 1 => i32Layout
      | .base 2 => i64Layout
      | .base 3 => f64Layout
      | .base 4 => pairI128Layout
      | .base 6 => fatPtrLayout
      | _ => i64Layout
    fnSigOf := fun t =>
      match t with
      | .fnDef 0 _ => sigF
      | .fnDef 1 _ => sigG
      | .fnDef 4 _ => sigVirt
      | .base 9 => sigVariadic
      | _ => unitFnSig
    resolveInstance := fun d _ =>
      match d with
      | 0 => { idef := .item, symbol := "f", fn_sig := sigF, fnTy := .fnDef 0 0 }
      | 1 => { idef := .item, symbol := "g", fn_sig := sigG, fnTy := .fnDef 1 0 }
      | 2 => { idef := .dropGlue none, symbol := "drop_noop", fn_sig := unitFnSig, fnTy := .fnDef 2 0 }
      | 3 => { idef := .item, symbol := "llvm.x86.sse2.pause", fn_sig := unitFnSig, fnTy := .fnDef 3 0 }
      | 4 => { idef := .virtual 2, symbol := "virt_method", fn_sig := sigVirt, fnTy := .fnDef 4 0 }
      | _ => instDefault
    resolveDropInPlace := fun t =>
      match t with
      | .base 1 => { idef := .dropGlue none, symbol := "drop_nothing", fn_sig := unitFnSig, fnTy := .fnDef 2 0 }
      | _ => instDefault
    valueField := fun v _ => v }

-- ---------------------------------------------------------------------------
-- Claim C2.

/-- Claim C2: a zero-sized type is never passed across a call boundary: the
classifier returns NoPass for it, signature synthesis contributes zero
parameter slots and zero return slots for it, outbound marshalling
contributes no argument value for it (and leaves the builder untouched), and
inbound parameter binding appends no block parameter for it. -/
theorem c2_zst_never_passed (tcx : Tcx) (layout : TyLayout) (cv : CValue) (ty : Ty) (fx : Fx)
    (hl : layout.isZst = true)
    (hcv : cv.layout.isZst = true)
    (hty : (tcx.layoutOf ty).isZst = true) :
    get_pass_mode tcx layout = .noPass
    ∧ (∀ i, input_slot_tys tcx false i ty = [])
    ∧ (∀ fnsig s vt, fnsig.output = ty → clif_sig_from_fn_sig tcx fnsig vt = .ok s →
        s.returns = [])
    ∧ adjust_arg_for_abi tcx fx cv = .ok (.empty, fx)
    ∧ cvalue_for_param tcx fx ty = (none, fx) := by
  have gp : ∀ l : TyLayout, l.isZst = true → get_pass_mode tcx l = .noPass :=
    fun l h => get_pass_mode_zst tcx l h
  refine ⟨gp layout hl, ?_, ?_, ?_, ?_⟩
  · intro i
    simp only [input_slot_tys, Bool.and_false, if_neg Bool.false_ne_true]
    rw [gp _ hty]
    rfl
  · intro fnsig s vt hout hsig
    cases habi : abi_of_sig tcx fnsig with
    | error e => simp [clif_sig_from_fn_sig, habi] at hsig
    | ok abi =>
      cases hconv : conv_inputs_output fnsig abi with
      | error e => simp [clif_sig_from_fn_sig, habi, hconv] at hsig
      | ok trip =>
        obtain ⟨cc, ins, out⟩ := trip
        have hout2 : out = fnsig.output := conv_inputs_output_output _ _ _ _ _ hconv
        have hnp : get_pass_mode tcx (tcx.layoutOf out) = .noPass := by
          rw [hout2, hout]; exact gp _ hty
        simp only [clif_sig_from_fn_sig, habi, hconv, hnp, Except.ok.injEq] at hsig
        rw [← hsig]
  · rw [adjust_arg_for_abi, gp _ hcv]
  · rw [cvalue_for_param]
    simp only [gp _ hty]

/-- Closed instantiation of the C2 theorem at a concrete zero-sized type. -/
theorem c2_witness :
    get_pass_mode tcxW zstLayout = .noPass
    ∧ (∀ i, input_slot_tys tcxW false i mk_unit = [])
    ∧ (∀ fnsig s vt, fnsig.output = mk_unit → clif_sig_from_fn_sig tcxW fnsig vt = .ok s →
        s.returns = [])
    ∧ adjust_arg_for_abi tcxW Fx.init (.byVal 0 zstLayout) = .ok (.empty, Fx.init)
    ∧ cvalue_for_param tcxW Fx.init mk_unit = (none, Fx.init) :=
  c2_zst_never_passed tcxW zstLayout (.byVal 0 zstLayout) mk_unit Fx.init rfl rfl rfl

-- ---------------------------------------------------------------------------
-- Claim C9.

/-- Claim C9 concerns a call to a function with a ByRef return whose caller
discards the result.  Evaluating the code at such a call site: the hidden
return-pointer argument supplied in the first low-level slot is the integer
constant 43 (an `iconst` of the literal 43), not the address of any
allocated scratch memory. -/
theorem c9_discarded_byref_return_gets_constant_43 :
    codegen_call_inner tcxW Fx.init none (.fnDef 0 0) [] none =
      .ok { valTys := [.i64], insts := [.iconst 0 .i64 43, .call "f" [0] []],
            ebbParams := [], localMap := [], nextSlot := 0 } := rfl

-- ---------------------------------------------------------------------------
-- Claim C10.

/-- Claim C10: a direct call whose statically resolved instance has a symbol
name beginning with "llvm." short-circuits terminator-call lowering before
any signature synthesis or argument marshalling: the whole call is delegated
to the LLVM-intrinsic collaborator (for every argument list, destination and
declared signature, even an unsupported one), and the only emitted event is
that delegation. -/
theorem c10_llvm_intrinsic_shortcut (tcx : Tcx) (ebbOf : Nat → Nat) (fx : Fx)
    (func : Operand) (args : List Operand) (destination : Option (CPlace × Nat))
    (defId substs : Nat)
    (hty : func.opTy = .fnDef defId substs)
    (hsym : starts_with (tcx.resolveInstance defId substs).symbol "llvm." = true) :
    codegen_terminator_call tcx ebbOf fx func args destination =
      .ok (fx.emit (.llvmIntrinsicCall (tcx.resolveInstance defId substs).symbol)) := by
  unfold codegen_terminator_call terminator_shortcut
  rw [hty]
  simp [hsym]

/-- Closed instantiation of the C10 theorem at a concrete llvm intrinsic. -/
theorem c10_witness :
    codegen_terminator_call tcxW (fun b => b) Fx.init ⟨.fnDef 3 0, .byVal 0 i64Layout⟩ [] none =
      .ok (Fx.init.emit (.llvmIntrinsicCall "llvm.x86.sse2.pause")) :=
  c10_llvm_intrinsic_shortcut tcxW (fun b => b) Fx.init ⟨.fnDef 3 0, .byVal 0 i64Layout⟩ [] none
    3 0 rfl (by decide)

-- ---------------------------------------------------------------------------
-- Claim C6.

/-- Claim C6: when the destructor of a place is statically the empty drop
glue, destruction lowering emits nothing at all (zero call instructions and
zero additional blocks), and a terminator call to an empty drop-glue function
is elided entirely to a jump straight to the continuation block. -/
theorem c6_noop_drop_is_elided (tcx : Tcx) (ebbOf : Nat → Nat) (fx : Fx) (drop_place : CPlace)
    (func : Operand) (args : List Operand) (pl : CPlace) (bb : Nat) (defId substs : Nat)
    (hdrop : (tcx.resolveDropInPlace drop_place.layout.ty).idef = .dropGlue none)
    (hty : func.opTy = .fnDef defId substs)
    (hsym : starts_with (tcx.resolveInstance defId substs).symbol "llvm." = false)
    (hdef : (tcx.resolveInstance defId substs).idef = .dropGlue none) :
    codegen_drop tcx fx drop_place = .ok fx
    ∧ codegen_terminator_call tcx ebbOf fx func args (some (pl, bb)) =
        .ok (fx.emit (.jump (ebbOf bb))) := by
  constructor
  · unfold codegen_drop
    simp only [hdrop]
  · unfold codegen_terminator_call terminator_shortcut
    rw [hty]
    simp [hsym, hdef]

/-- Closed instantiation of the C6 theorem at a concrete no-op destructor. -/
theorem c6_witness :
    codegen_drop tcxW Fx.init (.var 5 i32Layout) = .ok Fx.init
    ∧ codegen_terminator_call tcxW (fun b => b + 10) Fx.init ⟨.fnDef 2 0, .byVal 0 i64Layout⟩ []
        (some (.noPlace zstLayout, 7)) = .ok (Fx.init.emit (.jump 17)) :=
  c6_noop_drop_is_elided tcxW (fun b => b + 10) Fx.init (.var 5 i32Layout)
    ⟨.fnDef 2 0, .byVal 0 i64Layout⟩ [] (.noPlace zstLayout) 7 2 0 rfl rfl (by decide) rfl


-- ---------------------------------------------------------------------------
-- Claim C8.

lemma variadic_arg_tys_ok (fx : Fx) (l : List Nat)
    (h : ∀ v ∈ l, (fx.valTyOf v).is_int = true) :
    variadic_arg_tys fx l = .ok (l.map fx.valTyOf) := by
  induction l with
  | nil => rfl
  | cons v rest ih =>
    have hv : (fx.valTyOf v).is_int = true := h v (by simp)
    have hrest := ih (fun x hx => h x (by simp [hx]))
    simp [variadic_arg_tys, hv, hrest]

lemma variadic_arg_tys_err (fx : Fx) (l : List Nat)
    (h : ∃ v ∈ l, (fx.valTyOf v).is_int = false) :
    ∃ t, ClifType.is_int t = false ∧ variadic_arg_tys fx l = .error (.variadicNonIntArg t) := by
  induction l with
  | nil => simp at h
  | cons v rest ih =>
    by_cases hv : (fx.valTyOf v).is_int = true
    · obtain ⟨x, hx, hxf⟩ := h
      rcases List.mem_cons.mp hx with rfl | hx'
      · rw [hv] at hxf; cases hxf
      · obtain ⟨t, ht, heq⟩ := ih ⟨x, hx', hxf⟩
        refine ⟨t, ht, ?_⟩
        simp [variadic_arg_tys, hv, heq]
    · refine ⟨fx.valTyOf v, by simpa using hv, ?_⟩
      simp [variadic_arg_tys, hv]

def fx8 : Fx :=
  { valTys := [.i64, .f64, .i32], insts := [], ebbParams := [], localMap := [], nextSlot := 0 }

/-- Claim C8 counterexample: a C-variadic indirect call whose single extra
argument is integer-class (an i32) but whose fixed declared argument is an
f64.  The claim predicts the signature is rewritten at the call site (and
lowering proceeds); the code instead checks every low-level argument,
including the fixed ones, and fails with the variadic-argument-type error. -/
theorem c8_counterexample :
    (Fx.valTyOf fx8 2).is_int = true
    ∧ codegen_call_inner tcxW fx8 (some ⟨.base 9, .byVal 0 i64Layout⟩) (.base 9)
        [.byVal 1 f64Layout, .byVal 2 i32Layout] none =
      .error (.variadicNonIntArg .f64) := ⟨rfl, rfl⟩

/-- Claim C8 (as amended): in a variadic call the integer-class check applies
to every low-level argument of the call (hidden return pointer and fixed
arguments included, not only the extra ones); if any argument's machine type
is not integer-class the lowering fails with the variadic-argument-type
error, and otherwise the entire parameter list of the call signature is
rewritten in place to the actual argument machine types observed at the call
site. -/
theorem c8_variadic_int_check (fx : Fx) (fn_sig : FnSig) (call_args : List Nat)
    (hv : fn_sig.c_variadic = true) (habi : fn_sig.abi = .c) :
    ((∀ v ∈ call_args, (fx.valTyOf v).is_int = true) →
      variadic_adjustment fx fn_sig call_args =
        .ok (fx.emit (.sigRewrite (call_args.map fx.valTyOf))))
    ∧ ((∃ v ∈ call_args, (fx.valTyOf v).is_int = false) →
      ∃ t, ClifType.is_int t = false ∧
        variadic_adjustment fx fn_sig call_args = .error (.variadicNonIntArg t)) := by
  constructor
  · intro h
    rw [variadic_adjustment, if_pos hv, if_neg (by simp [habi]), variadic_arg_tys_ok fx call_args h]
  · intro h
    obtain ⟨t, ht, heq⟩ := variadic_arg_tys_err fx call_args h
    refine ⟨t, ht, ?_⟩
    rw [variadic_adjustment, if_pos hv, if_neg (by simp [habi]), heq]

/-- Closed instantiation of the amended C8 theorem: an all-integer argument
list is rewritten into the signature; a float argument fails. -/
theorem c8_witness :
    variadic_adjustment fx8 sigVariadic [0, 2] = .ok (fx8.emit (.sigRewrite [.i64, .i32]))
    ∧ ∃ t, ClifType.is_int t = false ∧
        variadic_adjustment fx8 sigVariadic [1] = .error (.variadicNonIntArg t) := by
  constructor
  · exact (c8_variadic_int_check fx8 sigVariadic [0, 2] rfl rfl).1 (by decide)
  · exact (c8_variadic_int_check fx8 sigVariadic [1] rfl rfl).2 ⟨1, by simp, by decide⟩


-- ---------------------------------------------------------------------------
-- Call-trace observations shared by several claims.

def call_args_of : Inst → Option (List Nat)
  | .call _ args _ => some args
  | .callIndirect _ _ args _ => some args
  | _ => none

def first_call_args (insts : List Inst) : Option (List Nat) :=
  insts.findSome? call_args_of

def no_call_insts (l : List Inst) : Prop := ∀ i ∈ l, call_args_of i = none

def appends_no_calls (fx fx' : Fx) : Prop :=
  ∃ d, fx'.insts = fx.insts ++ d ∧ no_call_insts d

lemma no_call_insts_nil : no_call_insts [] := by
  intro i hi
  cases hi

lemma no_call_insts_append {l1 l2 : List Inst} (h1 : no_call_insts l1) (h2 : no_call_insts l2) :
    no_call_insts (l1 ++ l2) := by
  intro i hi
  rcases List.mem_append.mp hi with h | h
  · exact h1 i h
  · exact h2 i h

lemma no_call_insts_one {i : Inst} (h : call_args_of i = none) : no_call_insts [i] := by
  intro j hj
  rcases List.mem_singleton.mp hj with rfl
  exact h

lemma appends_no_calls_refl (fx : Fx) : appends_no_calls fx fx :=
  ⟨[], by simp, no_call_insts_nil⟩

lemma appends_no_calls_trans {a b c : Fx} (h1 : appends_no_calls a b)
    (h2 : appends_no_calls b c) : appends_no_calls a c := by
  obtain ⟨d1, e1, n1⟩ := h1
  obtain ⟨d2, e2, n2⟩ := h2
  exact ⟨d1 ++ d2, by rw [e2, e1, List.append_assoc], no_call_insts_append n1 n2⟩

lemma no_call_of_appends {fx fx' : Fx} (h : appends_no_calls fx fx')
    (hnc : no_call_insts fx.insts) : no_call_insts fx'.insts := by
  obtain ⟨d, e, n⟩ := h
  rw [e]
  exact no_call_insts_append hnc n

lemma first_call_args_append_no_calls {l : List Inst} (rest : List Inst)
    (h : no_call_insts l) : first_call_args (l ++ rest) = first_call_args rest := by
  induction l with
  | nil => rfl
  | cons a t ih =>
    have ha : call_args_of a = none := h a (by simp)
    simp only [first_call_args, List.cons_append, List.findSome?_cons, ha]
    exact ih (fun i hi => h i (by simp [hi]))

lemma first_call_args_some {l : List Inst} {c : List Nat} (h : first_call_args l = some c) :
    ∃ i ∈ l, call_args_of i = some c := by
  induction l with
  | nil => cases h
  | cons a t ih =>
    cases ha : call_args_of a with
    | some c2 =>
      have he : first_call_args (a :: t) = some c2 := by
        simp [first_call_args, List.findSome?_cons, ha]
      rw [he] at h
      exact ⟨a, by simp, by rw [ha]; exact h⟩
    | none =>
      have he : first_call_args (a :: t) = first_call_args t := by
        simp [first_call_args, List.findSome?_cons, ha]
      rw [he] at h
      obtain ⟨i, hi, hc⟩ := ih h
      exact ⟨i, by simp [hi], hc⟩

-- ---------------------------------------------------------------------------
-- The pre- and post-call steps of codegen_call_inner only append non-call
-- instructions to the builder.

lemma freshVals_insts (ts : List ClifType) : ∀ fx : Fx, (fx.freshVals ts).2.insts = fx.insts := by
  induction ts with
  | nil => intro fx; rfl
  | cons t ts ih => intro fx; simp [Fx.freshVals, Fx.freshVal, ih]

lemma load_scalar_appends {tcx : Tcx} {fx : Fx} {cv : CValue} {x : Nat} {fx' : Fx}
    (h : load_scalar tcx fx cv = .ok (x, fx')) : appends_no_calls fx fx' := by
  cases cv with
  | byVal v l =>
    simp only [load_scalar, Except.ok.injEq, Prod.mk.injEq] at h
    rw [← h.2]
    exact appends_no_calls_refl fx
  | byValPair a b l => simp [load_scalar] at h
  | byRef a l =>
    cases hab : l.abi with
    | scalar s =>
      have he : load_scalar tcx fx (.byRef a l) =
          .ok (fx.valTys.length,
            ({ fx with valTys := fx.valTys ++ [scalar_to_clif_type tcx s] } : Fx).emit
              (.load fx.valTys.length a)) := by
        simp [load_scalar, hab, Fx.freshVal]
      rw [he] at h
      simp only [Except.ok.injEq, Prod.mk.injEq] at h
      rw [← h.2]
      exact ⟨[.load fx.valTys.length a], rfl, no_call_insts_one rfl⟩
    | uninhabited => simp [load_scalar, hab] at h
    | scalarPair s1 s2 => simp [load_scalar, hab] at h
    | vector => simp [load_scalar, hab] at h
    | aggregate => simp [load_scalar, hab] at h

lemma load_scalar_pair_appends {tcx : Tcx} {fx : Fx} {cv : CValue} {x : Nat × Nat} {fx' : Fx}
    (h : load_scalar_pair tcx fx cv = .ok (x, fx')) : appends_no_calls fx fx' := by
  cases cv with
  | byValPair a b l =>
    simp only [load_scalar_pair, Except.ok.injEq, Prod.mk.injEq] at h
    rw [← h.2]
    exact appends_no_calls_refl fx
  | byVal v l => simp [load_scalar_pair] at h
  | byRef a l =>
    cases hab : l.abi with
    | scalarPair s1 s2 =>
      have he : load_scalar_pair tcx fx (.byRef a l) =
          .ok ((fx.valTys.length, fx.valTys.length + 1),
            ({ fx with
                valTys := fx.valTys ++ [scalar_to_clif_type tcx s1]
                  ++ [scalar_to_clif_type tcx s2],
                insts := fx.insts ++ [.load fx.valTys.length a]
                  ++ [.load (fx.valTys.length + 1) a] } : Fx)) := by
        simp [load_scalar_pair, hab, Fx.freshVal, Fx.emit]
      rw [he] at h
      simp only [Except.ok.injEq, Prod.mk.injEq] at h
      rw [← h.2]
      refine ⟨[.load fx.valTys.length a, .load (fx.valTys.length + 1) a], by simp, ?_⟩
      intro i hi
      rcases List.mem_cons.mp hi with rfl | hi2
      · rfl
      rcases List.mem_singleton.mp hi2 with rfl
      rfl
    | uninhabited => simp [load_scalar_pair, hab] at h
    | scalar s => simp [load_scalar_pair, hab] at h
    | vector => simp [load_scalar_pair, hab] at h
    | aggregate => simp [load_scalar_pair, hab] at h

lemma force_stack_appends (tcx : Tcx) (fx : Fx) (cv : CValue) :
    appends_no_calls fx (force_stack tcx fx cv).2 := by
  cases cv with
  | byRef a l => exact appends_no_calls_refl fx
  | byVal v l =>
    refine ⟨[.stackAddr fx.valTys.length fx.nextSlot, .store v fx.valTys.length],
      by simp [force_stack, Fx.freshSlot, Fx.freshVal, Fx.emit], ?_⟩
    intro i hi
    rcases List.mem_cons.mp hi with rfl | hi2
    · rfl
    · rcases List.mem_singleton.mp hi2 with rfl
      rfl
  | byValPair v1 v2 l =>
    refine ⟨[.stackAddr fx.valTys.length fx.nextSlot, .store v1 fx.valTys.length,
        .store v2 fx.valTys.length],
      by simp [force_stack, Fx.freshSlot, Fx.freshVal, Fx.emit], ?_⟩
    intro i hi
    rcases List.mem_cons.mp hi with rfl | hi2
    · rfl
    rcases List.mem_cons.mp hi2 with rfl | hi3
    · rfl
    rcases List.mem_singleton.mp hi3 with rfl
    rfl

lemma to_addr_appends {p : CPlace} {tcx : Tcx} {fx : Fx} {a : Nat} {fx' : Fx}
    (h : p.to_addr tcx fx = .ok (a, fx')) : appends_no_calls fx fx' := by
  cases p with
  | addr x extra l =>
    cases extra with
    | none =>
      simp only [CPlace.to_addr, CPlace.to_addr_maybe_unsized, Except.ok.injEq,
        Prod.mk.injEq] at h
      rw [← h.2]
      exact appends_no_calls_refl fx
    | some e => simp [CPlace.to_addr, CPlace.to_addr_maybe_unsized] at h
  | stack slot l =>
    simp only [CPlace.to_addr, CPlace.to_addr_maybe_unsized, Fx.freshVal, Fx.emit,
      Except.ok.injEq, Prod.mk.injEq] at h
    rw [← h.2]
    exact ⟨[.stackAddr fx.valTys.length slot], rfl, no_call_insts_one rfl⟩
  | var x l => simp [CPlace.to_addr, CPlace.to_addr_maybe_unsized] at h
  | noPlace l => simp [CPlace.to_addr, CPlace.to_addr_maybe_unsized] at h
  | fieldOf q i => simp [CPlace.to_addr, CPlace.to_addr_maybe_unsized] at h

lemma get_ptr_and_method_ref_appends {tcx : Tcx} {fx : Fx} {cv : CValue} {idx : Nat}
    {x : Nat × Nat} {fx' : Fx}
    (h : get_ptr_and_method_ref tcx fx cv idx = .ok (x, fx')) : appends_no_calls fx fx' := by
  cases cv with
  | byValPair a b l =>
    simp only [get_ptr_and_method_ref, Fx.freshVal, Fx.emit, Except.ok.injEq,
      Prod.mk.injEq] at h
    rw [← h.2]
    exact ⟨[.load fx.valTys.length b], rfl, no_call_insts_one rfl⟩
  | byRef a l =>
    simp only [get_ptr_and_method_ref, Fx.freshVal, Fx.emit, Except.ok.injEq,
      Prod.mk.injEq] at h
    rw [← h.2]
    refine ⟨[.load fx.valTys.length a, .load (fx.valTys.length + 1) a,
      .load (fx.valTys.length + 2) (fx.valTys.length + 1)], by simp, ?_⟩
    intro i hi
    rcases List.mem_cons.mp hi with rfl | hi2
    · rfl
    rcases List.mem_cons.mp hi2 with rfl | hi3
    · rfl
    rcases List.mem_singleton.mp hi3 with rfl
    rfl
  | byVal v l => simp [get_ptr_and_method_ref] at h

lemma adjust_arg_for_abi_appends {tcx : Tcx} {fx : Fx} {cv : CValue}
    {esp : EmptySinglePair Nat} {fx' : Fx}
    (h : adjust_arg_for_abi tcx fx cv = .ok (esp, fx')) : appends_no_calls fx fx' := by
  unfold adjust_arg_for_abi at h
  cases hpm : get_pass_mode tcx cv.layout with
  | noPass =>
    rw [hpm] at h
    simp only [Except.ok.injEq, Prod.mk.injEq] at h
    rw [← h.2]
    exact appends_no_calls_refl fx
  | byVal t =>
    rw [hpm] at h
    cases hl : load_scalar tcx fx cv with
    | error e => rw [hl] at h; simp at h
    | ok pr =>
      obtain ⟨v, fx1⟩ := pr
      rw [hl] at h
      simp only [Except.ok.injEq, Prod.mk.injEq] at h
      rw [← h.2]
      exact load_scalar_appends hl
  | byValPair t1 t2 =>
    rw [hpm] at h
    cases hl : load_scalar_pair tcx fx cv with
    | error e => rw [hl] at h; simp at h
    | ok pr =>
      obtain ⟨⟨v1, v2⟩, fx1⟩ := pr
      rw [hl] at h
      simp only [Except.ok.injEq, Prod.mk.injEq] at h
      rw [← h.2]
      exact load_scalar_pair_appends hl
  | byRef =>
    rw [hpm] at h
    simp only [Except.ok.injEq, Prod.mk.injEq] at h
    rw [← h.2]
    exact force_stack_appends tcx fx cv

lemma adjust_args_appends {tcx : Tcx} {cvs : List CValue} :
    ∀ {fx : Fx} {vs : List Nat} {fx' : Fx},
    adjust_args tcx fx cvs = .ok (vs, fx') → appends_no_calls fx fx' := by
  induction cvs with
  | nil =>
    intro fx vs fx' h
    simp only [adjust_args, Except.ok.injEq, Prod.mk.injEq] at h
    rw [← h.2]
    exact appends_no_calls_refl fx
  | cons c rest ih =>
    intro fx vs fx' h
    unfold adjust_args at h
    cases hadj : adjust_arg_for_abi tcx fx c with
    | error e => rw [hadj] at h; simp at h
    | ok pr =>
      obtain ⟨esp1, fx1⟩ := pr
      rw [hadj] at h
      dsimp only at h
      cases hrest : adjust_args tcx fx1 rest with
      | error e => rw [hrest] at h; simp at h
      | ok pr2 =>
        obtain ⟨vs2, fx2⟩ := pr2
        rw [hrest] at h
        simp only [Except.ok.injEq, Prod.mk.injEq] at h
        rw [← h.2]
        exact appends_no_calls_trans (adjust_arg_for_abi_appends hadj) (ih hrest)

lemma call_return_ptr_appends {tcx : Tcx} {fx : Fx} {opm : PassMode}
    {rp : Option CPlace} {x : Option Nat} {fx' : Fx}
    (h : call_return_ptr tcx fx opm rp = .ok (x, fx')) : appends_no_calls fx fx' := by
  cases opm with
  | byRef =>
    cases rp with
    | some p =>
      unfold call_return_ptr at h
      dsimp only at h
      cases hta : p.to_addr tcx fx with
      | error e => rw [hta] at h; simp at h
      | ok pr =>
        obtain ⟨a, fx1⟩ := pr
        rw [hta] at h
        simp only [Except.ok.injEq, Prod.mk.injEq] at h
        rw [← h.2]
        exact to_addr_appends hta
    | none =>
      simp only [call_return_ptr, Fx.freshVal, Fx.emit, Except.ok.injEq, Prod.mk.injEq] at h
      rw [← h.2]
      exact ⟨[.iconst fx.valTys.length (pointer_ty tcx) 43], rfl, no_call_insts_one rfl⟩
  | noPass =>
    simp only [call_return_ptr, Except.ok.injEq, Prod.mk.injEq] at h
    rw [← h.2]
    exact appends_no_calls_refl fx
  | byVal t =>
    simp only [call_return_ptr, Except.ok.injEq, Prod.mk.injEq] at h
    rw [← h.2]
    exact appends_no_calls_refl fx
  | byValPair t1 t2 =>
    simp only [call_return_ptr, Except.ok.injEq, Prod.mk.injEq] at h
    rw [← h.2]
    exact appends_no_calls_refl fx

lemma call_target_appends {tcx : Tcx} {fx : Fx} {func : Option Operand}
    {instanceOpt : Option Instance} {args : List CValue}
    {tgt : Option Nat × EmptySinglePair Nat × Bool} {fx' : Fx}
    (h : call_target_and_first_arg tcx fx func instanceOpt args = .ok (tgt, fx')) :
    appends_no_calls fx fx' := by
  have hnormal : ∀ (h2 : (match args.head? with
      | none => (.ok ((none, .empty, false), fx) : Except Err ((Option Nat × EmptySinglePair Nat × Bool) × Fx))
      | some a0 =>
        match adjust_arg_for_abi tcx fx a0 with
        | .ok (esp, fx1) => .ok ((none, esp, false), fx1)
        | .error e => .error e) = .ok (tgt, fx')), appends_no_calls fx fx' := by
    intro h2
    cases hh : args.head? with
    | none =>
      rw [hh] at h2
      simp only [Except.ok.injEq, Prod.mk.injEq] at h2
      rw [← h2.2]
      exact appends_no_calls_refl fx
    | some a0 =>
      rw [hh] at h2
      dsimp only at h2
      cases hadj : adjust_arg_for_abi tcx fx a0 with
      | error e => rw [hadj] at h2; simp at h2
      | ok pr =>
        obtain ⟨esp, fx1⟩ := pr
        rw [hadj] at h2
        simp only [Except.ok.injEq, Prod.mk.injEq] at h2
        rw [← h2.2]
        exact adjust_arg_for_abi_appends hadj
  cases instanceOpt with
  | some inst =>
    unfold call_target_and_first_arg at h
    dsimp only at h
    cases hdef : inst.idef with
    | virtual idx =>
      rw [hdef] at h
      cases hh : args.head? with
      | none => rw [hh] at h; simp at h
      | some a0 =>
        rw [hh] at h
        dsimp only at h
        cases hm : get_ptr_and_method_ref tcx fx a0 idx with
        | error e => rw [hm] at h; simp at h
        | ok pr =>
          obtain ⟨⟨ptr, method⟩, fx1⟩ := pr
          rw [hm] at h
          simp only [Except.ok.injEq, Prod.mk.injEq] at h
          rw [← h.2]
          exact get_ptr_and_method_ref_appends hm
    | item => rw [hdef] at h; exact hnormal h
    | intrinsic => rw [hdef] at h; exact hnormal h
    | dropGlue d => rw [hdef] at h; exact hnormal h
  | none =>
    unfold call_target_and_first_arg at h
    dsimp only at h
    cases func with
    | none => simp at h
    | some funcOp =>
      dsimp only at h
      cases hl : load_scalar tcx fx funcOp.cval with
      | error e => rw [hl] at h; simp at h
      | ok pr =>
        obtain ⟨f, fx1⟩ := pr
        rw [hl] at h
        dsimp only at h
        cases hh : args.head? with
        | none =>
          rw [hh] at h
          simp only [Except.ok.injEq, Prod.mk.injEq] at h
          rw [← h.2]
          exact load_scalar_appends hl
        | some a0 =>
          rw [hh] at h
          dsimp only at h
          cases hadj : adjust_arg_for_abi tcx fx1 a0 with
          | error e => rw [hadj] at h; simp at h
          | ok pr2 =>
            obtain ⟨esp, fx2⟩ := pr2
            rw [hadj] at h
            simp only [Except.ok.injEq, Prod.mk.injEq] at h
            rw [← h.2]
            exact appends_no_calls_trans (load_scalar_appends hl) (adjust_arg_for_abi_appends hadj)

lemma variadic_adjustment_appends {fx : Fx} {fn_sig : FnSig} {call_args : List Nat} {fx' : Fx}
    (h : variadic_adjustment fx fn_sig call_args = .ok fx') : appends_no_calls fx fx' := by
  unfold variadic_adjustment at h
  cases hv : fn_sig.c_variadic with
  | false =>
    rw [hv] at h
    simp only [Bool.false_eq_true, if_false, Except.ok.injEq] at h
    rw [← h]
    exact appends_no_calls_refl fx
  | true =>
    rw [hv] at h
    simp only [if_true] at h
    by_cases habi : fn_sig.abi ≠ .c
    · rw [if_pos habi] at h; simp at h
    · rw [if_neg habi] at h
      cases hva : variadic_arg_tys fx call_args with
      | error e => rw [hva] at h; simp at h
      | ok ts =>
        rw [hva] at h
        simp only [Except.ok.injEq] at h
        rw [← h]
        exact ⟨[.sigRewrite ts], rfl, no_call_insts_one rfl⟩

lemma write_call_result_appends {fx : Fx} {opm : PassMode} {rp : Option CPlace}
    {results : List Nat} {rl : TyLayout} {fx' : Fx}
    (h : write_call_result fx opm rp results rl = .ok fx') : appends_no_calls fx fx' := by
  cases opm with
  | noPass =>
    simp only [write_call_result, Except.ok.injEq] at h
    rw [← h]
    exact appends_no_calls_refl fx
  | byRef =>
    simp only [write_call_result, Except.ok.injEq] at h
    rw [← h]
    exact appends_no_calls_refl fx
  | byVal t =>
    cases rp with
    | none =>
      simp only [write_call_result, Except.ok.injEq] at h
      rw [← h]
      exact appends_no_calls_refl fx
    | some p =>
      cases results with
      | nil => simp [write_call_result] at h
      | cons r rs =>
        simp only [write_call_result, Except.ok.injEq] at h
        rw [← h]
        exact ⟨[.write p (.byVal r rl)], rfl, no_call_insts_one rfl⟩
  | byValPair t1 t2 =>
    cases rp with
    | none =>
      simp only [write_call_result, Except.ok.injEq] at h
      rw [← h]
      exact appends_no_calls_refl fx
    | some p =>
      cases results with
      | nil => simp [write_call_result] at h
      | cons r rs =>
        cases rs with
        | nil => simp [write_call_result] at h
        | cons r2 rs2 =>
          simp only [write_call_result, Except.ok.injEq] at h
          rw [← h]
          exact ⟨[.write p (.byValPair r r2 rl)], rfl, no_call_insts_one rfl⟩


lemma first_call_args_append_of_some {l l2 : List Inst} {c : List Nat}
    (h : first_call_args l = some c) : first_call_args (l ++ l2) = some c := by
  induction l with
  | nil => cases h
  | cons a t ih =>
    cases ha : call_args_of a with
    | some c2 =>
      have he : first_call_args (a :: t) = some c2 := by
        simp [first_call_args, List.findSome?_cons, ha]
      rw [he] at h
      have he2 : first_call_args ((a :: t) ++ l2) = some c2 := by
        simp [first_call_args, List.findSome?_cons, ha]
      rw [he2, h]
    | none =>
      have he : first_call_args (a :: t) = first_call_args t := by
        simp [first_call_args, List.findSome?_cons, ha]
      rw [he] at h
      have he2 : first_call_args ((a :: t) ++ l2) = first_call_args (t ++ l2) := by
        simp [first_call_args, List.findSome?_cons, ha]
      rw [he2]
      exact ih h

-- The single call instruction emitted by codegen_call_inner: every step
-- before it appends only non-call instructions, its argument list is
-- [hidden return pointer] ++ first argument ++ remaining arguments, and an
-- indirect or virtual target calls through the synthesized signature.
lemma codegen_call_inner_first_call {tcx : Tcx} {fx : Fx} {func : Option Operand} {fn_ty : Ty}
    {args : List CValue} {ret_place : Option CPlace} {fx' : Fx} {rp : Option Nat} {fx1 : Fx}
    (hnc : no_call_insts fx.insts)
    (hrp : call_return_ptr tcx fx (get_pass_mode tcx (tcx.layoutOf (tcx.fnSigOf fn_ty).output))
      ret_place = .ok (rp, fx1))
    (h : codegen_call_inner tcx fx func fn_ty args ret_place = .ok fx') :
    ∃ (tgt : Option Nat × EmptySinglePair Nat × Bool) (fx2 : Fx) (rest : List Nat),
      call_target_and_first_arg tcx fx1 func (resolve_fn_instance tcx fn_ty) args = .ok (tgt, fx2)
      ∧ first_call_args fx'.insts = some (rp.toList ++ tgt.2.1.toList ++ rest)
      ∧ (∀ f, tgt.1 = some f →
          ∃ sg results, clif_sig_from_fn_sig tcx (tcx.fnSigOf fn_ty) tgt.2.2 = .ok sg ∧
            Inst.callIndirect sg f (rp.toList ++ tgt.2.1.toList ++ rest) results ∈ fx'.insts) := by
  unfold codegen_call_inner at h
  dsimp only at h
  rw [hrp] at h
  dsimp only at h
  cases htgt : call_target_and_first_arg tcx fx1 func (resolve_fn_instance tcx fn_ty) args with
  | error e => rw [htgt] at h; simp at h
  | ok pr =>
    obtain ⟨⟨fr, fa, virt⟩, fx2⟩ := pr
    rw [htgt] at h
    dsimp only at h
    cases hadj : adjust_args tcx fx2 (args.drop 1) with
    | error e => rw [hadj] at h; simp at h
    | ok pr2 =>
      obtain ⟨rest, fx3⟩ := pr2
      rw [hadj] at h
      dsimp only at h
      have hnc3 : no_call_insts fx3.insts :=
        no_call_of_appends (adjust_args_appends hadj)
          (no_call_of_appends (call_target_appends htgt)
            (no_call_of_appends (call_return_ptr_appends hrp) hnc))
      refine ⟨(fr, fa, virt), fx2, rest, rfl, ?_⟩
      cases fr with
      | some f =>
        cases hsg : clif_sig_from_fn_sig tcx (tcx.fnSigOf fn_ty) virt with
        | error e => rw [hsg] at h; simp at h
        | ok sg =>
          rw [hsg] at h
          dsimp only at h
          cases hfv : fx3.freshVals sg.returns with
          | mk results fxE =>
            rw [hfv] at h
            dsimp only at h
            cases hva : variadic_adjustment
                (fxE.emit (Inst.callIndirect sg f (rp.toList ++ fa.toList ++ rest) results))
                (tcx.fnSigOf fn_ty) (rp.toList ++ fa.toList ++ rest) with
            | error e => rw [hva] at h; simp at h
            | ok fx4 =>
              rw [hva] at h
              dsimp only at h
              have hEinsts : fxE.insts = fx3.insts := by
                have h2 := freshVals_insts sg.returns fx3
                rw [hfv] at h2
                exact h2
              have hEe : (fxE.emit (Inst.callIndirect sg f
                    (rp.toList ++ fa.toList ++ rest) results)).insts
                  = fx3.insts ++ [Inst.callIndirect sg f
                    (rp.toList ++ fa.toList ++ rest) results] := by
                simp [Fx.emit, hEinsts]
              obtain ⟨post, hpe, hpn⟩ :=
                appends_no_calls_trans (variadic_adjustment_appends hva)
                  (write_call_result_appends h)
              rw [hEe] at hpe
              constructor
              · rw [hpe, List.append_assoc, first_call_args_append_no_calls _ hnc3]
                simp [first_call_args, List.findSome?_cons, call_args_of]
              · intro f2 hf2
                have hff : f2 = f := by
                  simp only [Option.some.injEq] at hf2
                  exact hf2.symm
                subst hff
                refine ⟨sg, results, rfl, ?_⟩
                rw [hpe]
                simp
      | none =>
        cases hinst : resolve_fn_instance tcx fn_ty with
        | none => rw [hinst] at h; simp at h
        | some inst =>
          rw [hinst] at h
          dsimp only at h
          cases hgs : get_function_name_and_sig tcx inst true with
          | error e => rw [hgs] at h; simp at h
          | ok pr3 =>
            obtain ⟨name, sg⟩ := pr3
            rw [hgs] at h
            dsimp only at h
            cases hfv : fx3.freshVals sg.returns with
            | mk results fxE =>
              rw [hfv] at h
              dsimp only at h
              cases hva : variadic_adjustment
                  (fxE.emit (Inst.call name (rp.toList ++ fa.toList ++ rest) results))
                  (tcx.fnSigOf fn_ty) (rp.toList ++ fa.toList ++ rest) with
              | error e => rw [hva] at h; simp at h
              | ok fx4 =>
                rw [hva] at h
                dsimp only at h
                have hEinsts : fxE.insts = fx3.insts := by
                  have h2 := freshVals_insts sg.returns fx3
                  rw [hfv] at h2
                  exact h2
                have hEe : (fxE.emit (Inst.call name
                      (rp.toList ++ fa.toList ++ rest) results)).insts
                    = fx3.insts ++ [Inst.call name
                      (rp.toList ++ fa.toList ++ rest) results] := by
                  simp [Fx.emit, hEinsts]
                obtain ⟨post, hpe, hpn⟩ :=
                  appends_no_calls_trans (variadic_adjustment_appends hva)
                    (write_call_result_appends h)
                rw [hEe] at hpe
                constructor
                · rw [hpe, List.append_assoc, first_call_args_append_no_calls _ hnc3]
                  simp [first_call_args, List.findSome?_cons, call_args_of]
                · intro f2 hf2
                  simp at hf2

lemma clif_sig_byref_shape {tcx : Tcx} {sig : FnSig} {vt : Bool} {s : Signature}
    (hbr : get_pass_mode tcx (tcx.layoutOf sig.output) = .byRef)
    (hs : clif_sig_from_fn_sig tcx sig vt = .ok s) :
    ∃ abi cc inputs output, abi_of_sig tcx sig = .ok abi
      ∧ conv_inputs_output sig abi = .ok (cc, inputs, output)
      ∧ s.params = pointer_ty tcx :: lowered_inputs tcx vt inputs
      ∧ s.returns = [] := by
  cases habi : abi_of_sig tcx sig with
  | error e => simp [clif_sig_from_fn_sig, habi] at hs
  | ok abi =>
    cases hconv : conv_inputs_output sig abi with
    | error e => simp [clif_sig_from_fn_sig, habi, hconv] at hs
    | ok trip =>
      obtain ⟨cc, ins, out⟩ := trip
      have hout : out = sig.output := conv_inputs_output_output _ _ _ _ _ hconv
      have hbr2 : get_pass_mode tcx (tcx.layoutOf out) = .byRef := by
        rw [hout]; exact hbr
      refine ⟨abi, cc, ins, out, rfl, hconv, ?_, ?_⟩
      · simp only [clif_sig_from_fn_sig, habi, hconv, hbr2, Except.ok.injEq] at hs
        rw [← hs]
      · simp only [clif_sig_from_fn_sig, habi, hconv, hbr2, Except.ok.injEq] at hs
        rw [← hs]

-- ---------------------------------------------------------------------------
-- Claim C3.

/-- Claim C3: a function type whose return layout classifies ByRef gets a
synthesized low-level signature with exactly one extra leading pointer-typed
parameter (the hidden return pointer) prepended before all lowered declared
parameters, and zero low-level return slots; and at any call site to such a
function the address of the supplied return place occupies the first
low-level argument slot of the emitted call. -/
theorem c3_byref_return_hidden_pointer (tcx : Tcx) (fn_ty : Ty) (vt : Bool) (s : Signature)
    (fx : Fx) (func : Option Operand) (args : List CValue) (a : Nat) (L : TyLayout) (fx' : Fx)
    (hbr : get_pass_mode tcx (tcx.layoutOf (tcx.fnSigOf fn_ty).output) = .byRef)
    (hs : clif_sig_from_fn_sig tcx (tcx.fnSigOf fn_ty) vt = .ok s)
    (hnc : no_call_insts fx.insts)
    (hcall : codegen_call_inner tcx fx func fn_ty args (some (.addr a none L)) = .ok fx') :
    (∃ abi cc inputs output, abi_of_sig tcx (tcx.fnSigOf fn_ty) = .ok abi
      ∧ conv_inputs_output (tcx.fnSigOf fn_ty) abi = .ok (cc, inputs, output)
      ∧ s.params = pointer_ty tcx :: lowered_inputs tcx vt inputs
      ∧ s.returns = [])
    ∧ ∃ restArgs, first_call_args fx'.insts = some (a :: restArgs) := by
  refine ⟨clif_sig_byref_shape hbr hs, ?_⟩
  have hrp : call_return_ptr tcx fx
      (get_pass_mode tcx (tcx.layoutOf (tcx.fnSigOf fn_ty).output))
      (some (.addr a none L)) = .ok (some a, fx) := by
    rw [hbr]
    rfl
  obtain ⟨tgt, fx2, rest, htgt, hfc, hvt2⟩ := codegen_call_inner_first_call hnc hrp hcall
  exact ⟨tgt.2.1.toList ++ rest, hfc⟩

def c3fx : Fx :=
  { valTys := [], insts := [.call "f" [99] []], ebbParams := [], localMap := [], nextSlot := 0 }

/-- Closed instantiation of the C3 theorem at a concrete ByRef-returning
function. -/
theorem c3_witness :
    (∃ abi cc inputs output, abi_of_sig tcxW (tcxW.fnSigOf (.fnDef 0 0)) = .ok abi
      ∧ conv_inputs_output (tcxW.fnSigOf (.fnDef 0 0)) abi = .ok (cc, inputs, output)
      ∧ Signature.params { params := [.i64], returns := [], call_conv := .systemV }
          = pointer_ty tcxW :: lowered_inputs tcxW false inputs
      ∧ Signature.returns { params := [.i64], returns := [], call_conv := .systemV } = [])
    ∧ ∃ restArgs, first_call_args c3fx.insts = some (99 :: restArgs) :=
  c3_byref_return_hidden_pointer tcxW (.fnDef 0 0) false
    { params := [.i64], returns := [], call_conv := .systemV }
    Fx.init none [] 99 pairI128Layout c3fx
    rfl rfl (by intro i hi; cases hi) rfl

-- ---------------------------------------------------------------------------
-- Claim C5.

lemma lowered_inputs_from_pos (tcx : Tcx) (vt : Bool) (tys : List Ty) :
    ∀ i, lowered_inputs_from tcx vt (i + 1) tys = (tys.map (arg_slots tcx)).flatten := by
  induction tys with
  | nil => intro i; rfl
  | cons t rest ih =>
    intro i
    have hslot : input_slot_tys tcx vt (i + 1) t = arg_slots tcx t := rfl
    simp [lowered_inputs_from, hslot, ih]

/-- Claim C5: a virtual call passes a thin data-only receiver pointer: in the
synthesized signature the first parameter type is replaced by the
thin-pointer type before classification (with a pointer-classified thin
layout the first lowered slot is the pointer type regardless of the declared
receiver type), and at the call site the marshalled receiver is the data
pointer extracted from the (data, table) pair; the call goes indirectly
through the table-loaded method pointer with the vtable-thinned signature. -/
theorem c5_virtual_call_thin_receiver (tcx : Tcx) (t0 : Ty) (restTys : List Ty)
    (fx : Fx) (func : Option Operand) (defId substs idx : Nat)
    (dataPtr vtablePtr : Nat) (L : TyLayout) (restVals : List CValue)
    (ret_place : Option CPlace) (fx' : Fx)
    (hthin1 : (tcx.layoutOf (Ty.mutPtr mk_unit)).isZst = false)
    (hthin2 : (tcx.layoutOf (Ty.mutPtr mk_unit)).abi = .scalar ⟨.pointer⟩)
    (hvirt : (tcx.resolveInstance defId substs).idef = .virtual idx)
    (hnc : no_call_insts fx.insts)
    (hcall : codegen_call_inner tcx fx func (.fnDef defId substs)
        (CValue.byValPair dataPtr vtablePtr L :: restVals) ret_place = .ok fx') :
    lowered_inputs tcx true (t0 :: restTys)
      = pointer_ty tcx :: (restTys.map (arg_slots tcx)).flatten
    ∧ ∃ (rp : Option Nat) (m : Nat) (rest : List Nat) (sg : Signature) (results : List Nat),
        clif_sig_from_fn_sig tcx (tcx.fnSigOf (.fnDef defId substs)) true = .ok sg
        ∧ first_call_args fx'.insts = some (rp.toList ++ dataPtr :: rest)
        ∧ Inst.callIndirect sg m (rp.toList ++ dataPtr :: rest) results ∈ fx'.insts := by
  constructor
  · have hgp : get_pass_mode tcx (tcx.layoutOf (Ty.mutPtr mk_unit)) = .byVal (pointer_ty tcx) := by
      simp [get_pass_mode, hthin1, hthin2, scalar_to_clif_type]
    have h0 : input_slot_tys tcx true 0 t0 = [pointer_ty tcx] := by
      simp [input_slot_tys, hgp, pass_mode_slot_tys, EmptySinglePair.toList]
    simp [lowered_inputs, lowered_inputs_from, h0, lowered_inputs_from_pos]
  · have hrpS : ∃ rp fx1, call_return_ptr tcx fx
        (get_pass_mode tcx (tcx.layoutOf (tcx.fnSigOf (.fnDef defId substs)).output))
        ret_place = .ok (rp, fx1) := by
      cases hrp : call_return_ptr tcx fx
          (get_pass_mode tcx (tcx.layoutOf (tcx.fnSigOf (.fnDef defId substs)).output))
          ret_place with
      | error e =>
        exfalso
        unfold codegen_call_inner at hcall
        dsimp only at hcall
        rw [hrp] at hcall
        simp at hcall
      | ok pr =>
        obtain ⟨rp0, fx10⟩ := pr
        exact ⟨rp0, fx10, rfl⟩
    obtain ⟨rp, fx1, hrp⟩ := hrpS
    obtain ⟨tgt, fx2, rest2, htgt, hfc, hvt2⟩ := codegen_call_inner_first_call hnc hrp hcall
    have htgt2 : call_target_and_first_arg tcx fx1 func
        (resolve_fn_instance tcx (.fnDef defId substs))
        (CValue.byValPair dataPtr vtablePtr L :: restVals)
        = .ok ((some fx1.valTys.length, .single dataPtr, true),
            ({ fx1 with valTys := fx1.valTys ++ [pointer_ty tcx] } : Fx).emit
              (.load fx1.valTys.length vtablePtr)) := by
      simp [call_target_and_first_arg, resolve_fn_instance, hvirt, get_ptr_and_method_ref,
        Fx.freshVal]
    rw [htgt] at htgt2
    simp only [Except.ok.injEq, Prod.mk.injEq] at htgt2
    obtain ⟨htgtEq, _⟩ := htgt2
    subst htgtEq
    obtain ⟨sg, results, hsg, hmem⟩ := hvt2 fx1.valTys.length rfl
    refine ⟨rp, fx1.valTys.length, rest2, sg, results, ?_, ?_, ?_⟩
    · simpa using hsg
    · simpa using hfc
    · simpa using hmem

def c5sig : Signature := { params := [.i64, .i32], returns := [], call_conv := .systemV }

def c5fx : Fx :=
  { valTys := [.i64], insts := [.load 0 8, .callIndirect c5sig 0 [7, 9] []],
    ebbParams := [], localMap := [], nextSlot := 0 }

/-- Closed instantiation of the C5 theorem at a concrete virtual call. -/
theorem c5_witness :
    lowered_inputs tcxW true (Ty.base 6 :: [Ty.base 1])
      = pointer_ty tcxW :: ([Ty.base 1].map (arg_slots tcxW)).flatten
    ∧ ∃ (rp : Option Nat) (m : Nat) (rest : List Nat) (sg : Signature) (results : List Nat),
        clif_sig_from_fn_sig tcxW (tcxW.fnSigOf (.fnDef 4 0)) true = .ok sg
        ∧ first_call_args c5fx.insts = some (rp.toList ++ 7 :: rest)
        ∧ Inst.callIndirect sg m (rp.toList ++ 7 :: rest) results ∈ c5fx.insts :=
  c5_virtual_call_thin_receiver tcxW (.base 6) [.base 1] Fx.init none 4 0 2 7 8 fatPtrLayout
    [.byVal 9 i32Layout] none c5fx
    rfl rfl rfl (by intro i hi; cases hi) rfl

-- ---------------------------------------------------------------------------
-- Claim C7.

/-- Claim C7: a call site that declares no successor block lowers to the
call followed by a trap instruction in place of a jump, and this is
successful (ok) output of lowering, not a raised error; a call site with a
declared successor block ends with a jump to that block after the result is
written. -/
theorem c7_no_successor_lowers_to_trap (tcx : Tcx) (ebbOf : Nat → Nat) (fx : Fx)
    (func : Operand) (args : List Operand) (destination : Option (CPlace × Nat)) (fx' : Fx)
    (hnc : no_call_insts fx.insts)
    (hshort : terminator_shortcut tcx ebbOf fx func.opTy destination = none)
    (hterm : codegen_terminator_call tcx ebbOf fx func args destination = .ok fx') :
    (destination = none →
      fx'.insts.getLast? = some (.trap "[corruption] Diverging function returned")
      ∧ ∃ cargs, first_call_args fx'.insts = some cargs)
    ∧ (∀ pl bb, destination = some (pl, bb) →
      fx'.insts.getLast? = some (.jump (ebbOf bb))) := by
  unfold codegen_terminator_call at hterm
  dsimp only at hterm
  rw [hshort] at hterm
  dsimp only at hterm
  cases hargs : terminator_call_args tcx (tcx.fnSigOf func.opTy) args with
  | error e => rw [hargs] at hterm; simp at hterm
  | ok argVals =>
    rw [hargs] at hterm
    dsimp only at hterm
    cases hinner : codegen_call_inner tcx fx (some func) func.opTy argVals
        (destination.map (fun d => d.1)) with
    | error e => rw [hinner] at hterm; simp at hterm
    | ok fxI =>
      rw [hinner] at hterm
      dsimp only at hterm
      constructor
      · rintro rfl
        simp only [Option.map_none'] at hinner
        dsimp only at hterm
        simp only [trap_unreachable, Except.ok.injEq] at hterm
        rw [← hterm]
        constructor
        · simp only [Fx.emit]
          exact List.getLast?_concat _
        · cases hrp : call_return_ptr tcx fx
              (get_pass_mode tcx (tcx.layoutOf (tcx.fnSigOf func.opTy).output)) none with
          | error e =>
            exfalso
            unfold codegen_call_inner at hinner
            dsimp only at hinner
            rw [hrp] at hinner
            simp at hinner
          | ok pr =>
            obtain ⟨rp, fx1⟩ := pr
            obtain ⟨tgt, fx2, rest, htgt, hfc, hvt2⟩ :=
              codegen_call_inner_first_call hnc hrp hinner
            refine ⟨rp.toList ++ tgt.2.1.toList ++ rest, ?_⟩
            simp only [Fx.emit]
            exact first_call_args_append_of_some hfc
      · rintro pl bb rfl
        dsimp only at hterm
        simp only [Except.ok.injEq] at hterm
        rw [← hterm]
        simp only [Fx.emit]
        exact List.getLast?_concat _

def c7fx : Fx :=
  { valTys := [], insts := [.call "g" [0] [], .trap "[corruption] Diverging function returned"],
    ebbParams := [], localMap := [], nextSlot := 0 }

/-- Closed instantiation of the C7 theorem at a concrete call site with no
declared successor: lowering succeeds, the call is emitted, and a trap
follows it. -/
theorem c7_witness :
    ((none : Option (CPlace × Nat)) = none →
      c7fx.insts.getLast? = some (.trap "[corruption] Diverging function returned")
      ∧ ∃ cargs, first_call_args c7fx.insts = some cargs)
    ∧ (∀ pl bb, (none : Option (CPlace × Nat)) = some (pl, bb) →
      c7fx.insts.getLast? = some (.jump bb)) :=
  c7_no_successor_lowers_to_trap tcxW (fun b => b) Fx.init
    ⟨.fnDef 1 0, .byVal 0 i64Layout⟩ [⟨.base 1, .byVal 0 i32Layout⟩] none c7fx
    (by intro i hi; cases hi) rfl rfl


-- ---------------------------------------------------------------------------
-- Claim C4.

-- Field indices of the writes a given tuple place receives, in emission
-- order.
def spread_write_indices (insts : List Inst) (p : CPlace) : List Nat :=
  insts.filterMap (fun i =>
    match i with
    | .write (.fieldOf q j) _ => if q = p then some j else none
    | _ => none)

-- The indices (counting all tuple elements) of the elements whose pass mode
-- is not NoPass, in order.
def present_field_indices_from (tcx : Tcx) (i : Nat) : List Ty → List Nat
  | [] => []
  | t :: rest =>
    if get_pass_mode tcx (tcx.layoutOf t) = .noPass
    then present_field_indices_from tcx (i + 1) rest
    else i :: present_field_indices_from tcx (i + 1) rest

-- The write trace write_spread_fields produces.
def spread_writes_of (place : CPlace) (i : Nat) : List (Option CValue) → List Inst
  | [] => []
  | none :: rest => spread_writes_of place (i + 1) rest
  | some p :: rest => .write (.fieldOf place i) p :: spread_writes_of place (i + 1) rest

-- Indices of the present entries of an option list, starting at i.
def some_field_indices (i : Nat) : List (Option CValue) → List Nat
  | [] => []
  | none :: rest => some_field_indices (i + 1) rest
  | some _ :: rest => i :: some_field_indices (i + 1) rest

lemma spread_write_indices_append (l1 l2 : List Inst) (p : CPlace) :
    spread_write_indices (l1 ++ l2) p
      = spread_write_indices l1 p ++ spread_write_indices l2 p := by
  simp [spread_write_indices, List.filterMap_append]

lemma spread_write_indices_spread_writes (place : CPlace) (ps : List (Option CValue)) :
    ∀ i, spread_write_indices (spread_writes_of place i ps) place = some_field_indices i ps := by
  induction ps with
  | nil => intro i; rfl
  | cons p rest ih =>
    intro i
    cases p with
    | none => simp [spread_writes_of, some_field_indices, ih]
    | some v =>
      have hh : spread_write_indices (spread_writes_of place i (some v :: rest)) place
          = i :: spread_write_indices (spread_writes_of place (i + 1) rest) place := by
        simp [spread_writes_of, spread_write_indices]
      rw [hh, ih (i + 1)]
      rfl

lemma cvalue_for_param_state (tcx : Tcx) (fx : Fx) (ty : Ty) :
    ((cvalue_for_param tcx fx ty).2.insts = fx.insts
    ∧ (cvalue_for_param tcx fx ty).2.valTys = fx.valTys ++ arg_slots tcx ty)
    ∧ (cvalue_for_param tcx fx ty).2.localMap = fx.localMap
    ∧ (cvalue_for_param tcx fx ty).2.nextSlot = fx.nextSlot := by
  cases hpm : get_pass_mode tcx (tcx.layoutOf ty) <;>
    simp [cvalue_for_param, hpm, arg_slots, pass_mode_slot_tys, EmptySinglePair.toList,
      Fx.appendEbbParam, Fx.freshVal, pointer_ty]

lemma cvalue_for_param_isSome (tcx : Tcx) (fx : Fx) (ty : Ty) :
    ((cvalue_for_param tcx fx ty).1).isSome
      = decide (get_pass_mode tcx (tcx.layoutOf ty) ≠ .noPass) := by
  cases hpm : get_pass_mode tcx (tcx.layoutOf ty) <;> simp [cvalue_for_param, hpm]

lemma cvalues_for_params_state (tcx : Tcx) (tys : List Ty) : ∀ fx : Fx,
    ((cvalues_for_params tcx fx tys).2.insts = fx.insts
    ∧ (cvalues_for_params tcx fx tys).2.valTys
        = fx.valTys ++ (tys.map (arg_slots tcx)).flatten)
    ∧ (cvalues_for_params tcx fx tys).2.localMap = fx.localMap
    ∧ (cvalues_for_params tcx fx tys).2.nextSlot = fx.nextSlot := by
  induction tys with
  | nil => intro fx; simp [cvalues_for_params]
  | cons t rest ih =>
    intro fx
    cases hcv : cvalue_for_param tcx fx t with
    | mk p fx1 =>
      cases hcs : cvalues_for_params tcx fx1 rest with
      | mk ps fx2 =>
        have hs := cvalue_for_param_state tcx fx t
        rw [hcv] at hs
        obtain ⟨⟨h1, h2⟩, h3, h4⟩ := hs
        have gs := ih fx1
        rw [hcs] at gs
        obtain ⟨⟨g1, g2⟩, g3, g4⟩ := gs
        have hres : cvalues_for_params tcx fx (t :: rest) = (p :: ps, fx2) := by
          simp [cvalues_for_params, hcv, hcs]
        rw [hres]
        dsimp only at h1 h2 h3 h4 g1 g2 g3 g4 ⊢
        refine ⟨⟨by rw [g1, h1], ?_⟩, by rw [g3, h3], by rw [g4, h4]⟩
        rw [g2, h2]
        simp [List.append_assoc]

lemma cvalues_for_params_isSome_map (tcx : Tcx) (tys : List Ty) : ∀ fx : Fx,
    ((cvalues_for_params tcx fx tys).1).map Option.isSome
      = tys.map (fun t => decide (get_pass_mode tcx (tcx.layoutOf t) ≠ .noPass)) := by
  induction tys with
  | nil => intro fx; rfl
  | cons t rest ih =>
    intro fx
    cases hcv : cvalue_for_param tcx fx t with
    | mk p fx1 =>
      cases hcs : cvalues_for_params tcx fx1 rest with
      | mk ps fx2 =>
        have hres : cvalues_for_params tcx fx (t :: rest) = (p :: ps, fx2) := by
          simp [cvalues_for_params, hcv, hcs]
        have hone := cvalue_for_param_isSome tcx fx t
        rw [hcv] at hone
        have hrest := ih fx1
        rw [hcs] at hrest
        dsimp only at hone hrest
        simp [hres, hone, hrest]

lemma some_field_indices_eq_present (tcx : Tcx) (ps : List (Option CValue)) :
    ∀ (tys : List Ty),
    ps.map Option.isSome
      = tys.map (fun t => decide (get_pass_mode tcx (tcx.layoutOf t) ≠ .noPass)) →
    ∀ i, some_field_indices i ps = present_field_indices_from tcx i tys := by
  induction ps with
  | nil =>
    intro tys h i
    cases tys with
    | nil => rfl
    | cons t r => simp at h
  | cons p pr ih =>
    intro tys h i
    cases tys with
    | nil => simp at h
    | cons t tr =>
      simp only [List.map_cons, List.cons.injEq] at h
      obtain ⟨h1, h2⟩ := h
      cases p with
      | none =>
        have hnp : get_pass_mode tcx (tcx.layoutOf t) = .noPass := by
          have := h1.symm
          simpa using this
        simp [some_field_indices, present_field_indices_from, hnp, ih tr h2]
      | some v =>
        have hnp : ¬ get_pass_mode tcx (tcx.layoutOf t) = .noPass := by
          have := h1.symm
          simpa using this
        simp [some_field_indices, present_field_indices_from, hnp, ih tr h2]

lemma write_spread_fields_state (place : CPlace) (ps : List (Option CValue)) :
    ∀ (i : Nat) (fx : Fx),
      (write_spread_fields place i fx ps).insts = fx.insts ++ spread_writes_of place i ps
      ∧ (write_spread_fields place i fx ps).valTys = fx.valTys
      ∧ (write_spread_fields place i fx ps).localMap = fx.localMap
      ∧ (write_spread_fields place i fx ps).nextSlot = fx.nextSlot := by
  induction ps with
  | nil => intro i fx; simp [write_spread_fields, spread_writes_of]
  | cons p rest ih =>
    intro i fx
    cases p with
    | none => simpa [write_spread_fields, spread_writes_of] using ih (i + 1) fx
    | some v =>
      obtain ⟨a1, a2, a3, a4⟩ := ih (i + 1) (fx.emit (.write (.fieldOf place i) v))
      simp only [Fx.emit] at a1 a2 a3 a4
      simp [write_spread_fields, spread_writes_of, a1, a2, a3, a4, Fx.emit, List.append_assoc]

lemma local_place_state (fx : Fx) (loc : Nat) (layout : TyLayout) (b : Bool) :
    ((local_place fx loc layout b).2.insts = fx.insts
    ∧ (local_place fx loc layout b).2.valTys = fx.valTys)
    ∧ (local_place fx loc layout b).2.localMap
        = fx.localMap ++ [(loc, (local_place fx loc layout b).1)]
    ∧ ((local_place fx loc layout b).1 = CPlace.var loc layout
        ∨ (local_place fx loc layout b).1 = CPlace.stack fx.nextSlot layout) := by
  cases b <;> simp [local_place, Fx.bindLocal, Fx.freshSlot]

lemma bind_args_c4 (tcx : Tcx) (ssa : Nat → Bool) (fx : Fx) (p1 : Option CValue)
    (selfTy tupleTy : Ty) (ps : List (Option CValue)) :
    ∃ (place1 place2 : CPlace) (w1 : List Inst),
      (∀ q, spread_write_indices w1 q = [])
      ∧ (bind_args tcx ssa fx [(1, .normal p1, selfTy), (2, .spread ps, tupleTy)]).insts
          = fx.insts ++ w1 ++ spread_writes_of place2 0 ps
      ∧ (bind_args tcx ssa fx [(1, .normal p1, selfTy), (2, .spread ps, tupleTy)]).valTys
          = fx.valTys
      ∧ (bind_args tcx ssa fx [(1, .normal p1, selfTy), (2, .spread ps, tupleTy)]).localMap
          = fx.localMap ++ [(1, place1), (2, place2)] := by
  cases hl1 : local_place fx 1 (tcx.layoutOf selfTy) (!(ssa 1)) with
  | mk place1 fxC =>
    have s1 := local_place_state fx 1 (tcx.layoutOf selfTy) (!(ssa 1))
    rw [hl1] at s1
    obtain ⟨⟨s1a, s1b⟩, s1c, s1d⟩ := s1
    dsimp only at s1a s1b s1c s1d
    -- the state after the normal first argument is bound
    have hplace1 : ∀ q, spread_write_indices [Inst.write place1 (p1.getD (.byVal 0 (tcx.layoutOf selfTy)))] q = [] := by
      intro q
      rcases s1d with h | h <;> subst h <;> simp [spread_write_indices]
    cases p1 with
    | none =>
      cases hl2 : local_place fxC 2 (tcx.layoutOf tupleTy) (!(ssa 2)) with
      | mk place2 fxE =>
        have s2 := local_place_state fxC 2 (tcx.layoutOf tupleTy) (!(ssa 2))
        rw [hl2] at s2
        obtain ⟨⟨s2a, s2b⟩, s2c, s2d⟩ := s2
        dsimp only at s2a s2b s2c s2d
        obtain ⟨w1a, w2a, w3a, w4a⟩ := write_spread_fields_state place2 ps 0 fxE
        have hba : bind_args tcx ssa fx
            [(1, ArgKind.normal none, selfTy), (2, ArgKind.spread ps, tupleTy)]
            = write_spread_fields place2 0 fxE ps := by
          simp [bind_args, hl1, hl2]
        refine ⟨place1, place2, [], fun q => rfl, ?_, ?_, ?_⟩
        · rw [hba, w1a, s2a, s1a]
          simp
        · rw [hba, w2a, s2b, s1b]
        · rw [hba, w3a, s2c, s1c]
          simp
    | some v =>
      cases hl2 : local_place (fxC.emit (.write place1 v)) 2 (tcx.layoutOf tupleTy) (!(ssa 2)) with
      | mk place2 fxE =>
        have s2 := local_place_state (fxC.emit (.write place1 v)) 2 (tcx.layoutOf tupleTy) (!(ssa 2))
        rw [hl2] at s2
        obtain ⟨⟨s2a, s2b⟩, s2c, s2d⟩ := s2
        dsimp only at s2a s2b s2c s2d
        obtain ⟨w1a, w2a, w3a, w4a⟩ := write_spread_fields_state place2 ps 0 fxE
        have hba : bind_args tcx ssa fx
            [(1, ArgKind.normal (some v), selfTy), (2, ArgKind.spread ps, tupleTy)]
            = write_spread_fields place2 0 fxE ps := by
          simp [bind_args, hl1, hl2]
        refine ⟨place1, place2, [Inst.write place1 v], ?_, ?_, ?_, ?_⟩
        · intro q
          rcases s1d with h | h <;> subst h <;> simp [spread_write_indices]
        · rw [hba, w1a, s2a]
          simp [Fx.emit, s1a, List.append_assoc]
        · rw [hba, w2a, s2b]
          simp [Fx.emit, s1b]
        · rw [hba, w3a, s2c]
          simp [Fx.emit, s1c]


/-- Claim C4: under the closure-call convention with declared signature
(Self, (A, B, ...)), the synthesized low-level signature lists the receiver
slots followed by each flattened tuple element's slots in declared
left-to-right order — with a one-slot receiver and a non-ByRef return that
is 1 + slots(A) + slots(B) + ... parameters — and at function entry the
prologue allocates exactly those block parameters in the same order and
reconstructs the element values into the tuple-shaped spread local, writing
its fields in increasing index order, one write per element that is
actually passed. -/
theorem c4_closure_call_spread (tcx : Tcx) (selfTy out : Ty) (elems : List Ty)
    (s : Signature) (ssaNotSSA : Nat → Bool) (ebbOf : Nat → Nat) (fx' : Fx)
    (hself : (arg_slots tcx selfTy).length = 1)
    (hout : get_pass_mode tcx (tcx.layoutOf out) ≠ .byRef)
    (hs : clif_sig_from_fn_sig tcx ⟨[selfTy, .tuple elems], out, .rustCall, false⟩ false = .ok s)
    (hp : codegen_fn_prelude tcx ⟨[selfTy, .tuple elems], out, .rustCall, false⟩
        ⟨[(1, selfTy), (2, .tuple elems)], some 2, []⟩ ssaNotSSA ebbOf Fx.init = .ok fx') :
    s.params = arg_slots tcx selfTy ++ (elems.map (arg_slots tcx)).flatten
    ∧ s.params.length = 1 + (elems.map (fun t => (arg_slots tcx t).length)).sum
    ∧ fx'.valTys = arg_slots tcx selfTy ++ (elems.map (arg_slots tcx)).flatten
    ∧ ∃ place2, fx'.lookupLocal 2 = some place2
        ∧ spread_write_indices fx'.insts place2 = present_field_indices_from tcx 0 elems := by
  have hlow : lowered_inputs tcx false (selfTy :: elems)
      = arg_slots tcx selfTy ++ (elems.map (arg_slots tcx)).flatten := by
    have h0 : input_slot_tys tcx false 0 selfTy = arg_slots tcx selfTy := rfl
    simp [lowered_inputs, lowered_inputs_from, h0, lowered_inputs_from_pos]
  have hparams : s.params = arg_slots tcx selfTy ++ (elems.map (arg_slots tcx)).flatten := by
    cases hopm : get_pass_mode tcx (tcx.layoutOf out) with
    | byRef => exact absurd hopm hout
    | noPass =>
      simp only [clif_sig_from_fn_sig, abi_of_sig, conv_inputs_output, hopm,
        Except.ok.injEq] at hs
      rw [← hs]
      exact hlow
    | byVal t =>
      simp only [clif_sig_from_fn_sig, abi_of_sig, conv_inputs_output, hopm,
        Except.ok.injEq] at hs
      rw [← hs]
      exact hlow
    | byValPair t1 t2 =>
      simp only [clif_sig_from_fn_sig, abi_of_sig, conv_inputs_output, hopm,
        Except.ok.injEq] at hs
      rw [← hs]
      exact hlow
  have hlen : s.params.length
      = 1 + (elems.map (fun t => (arg_slots tcx t).length)).sum := by
    rw [hparams]
    simp only [List.length_append, List.length_flatten, List.map_map, hself]
    rfl
  cases hp1 : cvalue_for_param tcx Fx.init selfTy with
  | mk p1 fxA =>
  cases hps : cvalues_for_params tcx fxA elems with
  | mk ps fxB =>
  have sA := cvalue_for_param_state tcx Fx.init selfTy
  rw [hp1] at sA
  obtain ⟨⟨sA1, sA2⟩, sA3, sA4⟩ := sA
  dsimp only at sA1 sA2 sA3 sA4
  have sB := cvalues_for_params_state tcx elems fxA
  rw [hps] at sB
  obtain ⟨⟨sB1, sB2⟩, sB3, sB4⟩ := sB
  dsimp only at sB1 sB2 sB3 sB4
  have hcol : collect_func_params tcx (some 2) Fx.init [(1, selfTy), (2, .tuple elems)]
      = .ok ([(1, ArgKind.normal p1, selfTy), (2, ArgKind.spread ps, .tuple elems)], fxB) := by
    simp [collect_func_params, hp1, hps]
  have main : ∀ (fxB1 : Fx) (X : CPlace),
      fxB1.insts = fxB.insts → fxB1.valTys = fxB.valTys →
      fxB1.localMap = fxB.localMap ++ [(0, X)] →
      fx' = ((bind_args tcx ssaNotSSA fxB1
          [(1, ArgKind.normal p1, selfTy), (2, ArgKind.spread ps, .tuple elems)]).emit
            (.jump (ebbOf START_BLOCK))) →
      fx'.valTys = arg_slots tcx selfTy ++ (elems.map (arg_slots tcx)).flatten
      ∧ ∃ place2, fx'.lookupLocal 2 = some place2
          ∧ spread_write_indices fx'.insts place2 = present_field_indices_from tcx 0 elems := by
    intro fxB1 X hI hV hL hfx
    obtain ⟨place1, place2, w1, hw1, hbaI, hbaV, hbaL⟩ :=
      bind_args_c4 tcx ssaNotSSA fxB1 p1 selfTy (.tuple elems) ps
    have hemitV : ((bind_args tcx ssaNotSSA fxB1
        [(1, ArgKind.normal p1, selfTy), (2, ArgKind.spread ps, .tuple elems)]).emit
          (.jump (ebbOf START_BLOCK))).valTys
        = (bind_args tcx ssaNotSSA fxB1
          [(1, ArgKind.normal p1, selfTy), (2, ArgKind.spread ps, .tuple elems)]).valTys := rfl
    have hemitL : ((bind_args tcx ssaNotSSA fxB1
        [(1, ArgKind.normal p1, selfTy), (2, ArgKind.spread ps, .tuple elems)]).emit
          (.jump (ebbOf START_BLOCK))).localMap
        = (bind_args tcx ssaNotSSA fxB1
          [(1, ArgKind.normal p1, selfTy), (2, ArgKind.spread ps, .tuple elems)]).localMap := rfl
    have hemitI : ((bind_args tcx ssaNotSSA fxB1
        [(1, ArgKind.normal p1, selfTy), (2, ArgKind.spread ps, .tuple elems)]).emit
          (.jump (ebbOf START_BLOCK))).insts
        = (bind_args tcx ssaNotSSA fxB1
          [(1, ArgKind.normal p1, selfTy), (2, ArgKind.spread ps, .tuple elems)]).insts
          ++ [.jump (ebbOf START_BLOCK)] := rfl
    refine ⟨?_, place2, ?_, ?_⟩
    · rw [hfx, hemitV, hbaV, hV, sB2, sA2]
      simp [Fx.init]
    · rw [hfx]
      rw [Fx.lookupLocal, hemitL, hbaL, hL, sB3, sA3]
      simp [Fx.init]
    · rw [hfx, hemitI, hbaI, hI, sB1, sA1]
      have hj : spread_write_indices [Inst.jump (ebbOf START_BLOCK)] place2 = [] := rfl
      have hsome := cvalues_for_params_isSome_map tcx elems fxA
      rw [hps] at hsome
      dsimp only at hsome
      simp only [Fx.init, List.nil_append, spread_write_indices_append, hj, hw1,
        spread_write_indices_spread_writes, List.append_nil]
      exact some_field_indices_eq_present tcx ps elems hsome 0
  unfold codegen_fn_prelude at hp
  dsimp only at hp
  cases hopm : get_pass_mode tcx (tcx.layoutOf out) with
  | byRef => exact absurd hopm hout
  | noPass =>
    rw [hopm] at hp
    dsimp only at hp
    rw [hcol] at hp
    dsimp only [bind_vars_and_temps] at hp
    simp only [Except.ok.injEq] at hp
    exact ⟨hparams, hlen,
      main (fxB.bindLocal RETURN_PLACE (.noPlace (tcx.layoutOf out)))
        (.noPlace (tcx.layoutOf out))
        rfl rfl (by simp [Fx.bindLocal, RETURN_PLACE]) hp.symm⟩
  | byVal t =>
    rw [hopm] at hp
    dsimp only at hp
    rw [hcol] at hp
    dsimp only [bind_vars_and_temps] at hp
    cases hlr : local_place fxB RETURN_PLACE (tcx.layoutOf out) (!ssaNotSSA RETURN_PLACE) with
    | mk pr fxB1 =>
      have sR := local_place_state fxB RETURN_PLACE (tcx.layoutOf out) (!ssaNotSSA RETURN_PLACE)
      rw [hlr] at sR
      obtain ⟨⟨sR1, sR2⟩, sR3, _⟩ := sR
      dsimp only at sR1 sR2 sR3
      rw [hlr] at hp
      dsimp only at hp
      simp only [Except.ok.injEq] at hp
      exact ⟨hparams, hlen,
        main fxB1 pr sR1 sR2 (by simpa [RETURN_PLACE] using sR3) hp.symm⟩
  | byValPair t1 t2 =>
    rw [hopm] at hp
    dsimp only at hp
    rw [hcol] at hp
    dsimp only [bind_vars_and_temps] at hp
    cases hlr : local_place fxB RETURN_PLACE (tcx.layoutOf out) (!ssaNotSSA RETURN_PLACE) with
    | mk pr fxB1 =>
      have sR := local_place_state fxB RETURN_PLACE (tcx.layoutOf out) (!ssaNotSSA RETURN_PLACE)
      rw [hlr] at sR
      obtain ⟨⟨sR1, sR2⟩, sR3, _⟩ := sR
      dsimp only at sR1 sR2 sR3
      rw [hlr] at hp
      dsimp only at hp
      simp only [Except.ok.injEq] at hp
      exact ⟨hparams, hlen,
        main fxB1 pr sR1 sR2 (by simpa [RETURN_PLACE] using sR3) hp.symm⟩


def c4fx : Fx :=
  { valTys := [.i64, .i32, .f64],
    insts := [.write (.var 1 thinPtrLayout) (.byVal 0 thinPtrLayout),
      .write (.fieldOf (.var 2 i64Layout) 0) (.byVal 1 i32Layout),
      .write (.fieldOf (.var 2 i64Layout) 2) (.byVal 2 f64Layout),
      .jump 0],
    ebbParams := [0, 1, 2],
    localMap := [(0, .noPlace zstLayout), (1, .var 1 thinPtrLayout), (2, .var 2 i64Layout)],
    nextSlot := 0 }

def c4sig : Signature := { params := [.i64, .i32, .f64], returns := [], call_conv := .systemV }

theorem c4_witness :
    c4sig.params = arg_slots tcxW (.mutPtr (.base 1))
        ++ ([Ty.base 1, Ty.tuple [], Ty.base 3].map (arg_slots tcxW)).flatten
    ∧ c4sig.params.length
        = 1 + ([Ty.base 1, Ty.tuple [], Ty.base 3].map (fun t => (arg_slots tcxW t).length)).sum
    ∧ c4fx.valTys = arg_slots tcxW (.mutPtr (.base 1))
        ++ ([Ty.base 1, Ty.tuple [], Ty.base 3].map (arg_slots tcxW)).flatten
    ∧ ∃ place2, c4fx.lookupLocal 2 = some place2
        ∧ spread_write_indices c4fx.insts place2
            = present_field_indices_from tcxW 0 [Ty.base 1, Ty.tuple [], Ty.base 3] :=
  c4_closure_call_spread tcxW (.mutPtr (.base 1)) mk_unit [Ty.base 1, Ty.tuple [], Ty.base 3]
    c4sig (fun _ => false) (fun b => b) c4fx
    (by decide) (by decide) (by rfl) (by rfl)

end Clif
